import Mathlib

/-!
Verification of the sift analysis-cache and reconciliation pipeline.

Shallow embedding of the TypeScript sources:
- `src/lib/cache.ts` (unnamed part) : fingerprint `hashEmail`, SQLite-backed
  store `getCachedAnalysis`, `getCachedTodos`, `cacheAnalysisBatch`;
- `src/lib/claude.ts` : `callLLM` adapter dispatch and the batch
  orchestrator `analyzeEmails`;
- `src/lib/reminders.ts` : tracker state extraction
  `getEmailReminderStates`, `createReminderFromTodo`, `fetchPendingReminders`;
- `src/app.tsx` : the 30-day active/backlog split with reminder-state
  hydration;
- `src/components/TodoList.tsx` : the windowed viewport computation.

Modelling conventions: JavaScript 32-bit integer coercion is explicit
(`toInt32`); SQLite rows are a list of records with `find?` as point lookup
and INSERT OR REPLACE as an upsert; external effects (CLI/exec/spawn
results, LLM responses) are inputs to the embedded functions; `Date`
values are abstracted to integers where only their ordering matters, via an
explicit parse parameter.
-/

namespace Sift

/-- Urgency tiers from `types.ts`. -/
inductive Urgency where
  | overdue
  | this_week
  | when_you_can
deriving DecidableEq, Repr

/-- Reminder reconciliation state from `types.ts`. -/
inductive ReminderState where
  | none
  | pending
  | completed
deriving DecidableEq, Repr

/-- Todo source tag from `types.ts`. -/
inductive TodoSource where
  | email
  | reminder
deriving DecidableEq, Repr

/-- The `Todo` record of `types.ts`. Optional string fields are `Option`;
`from` is a Lean keyword so the field is named `from'`. -/
structure Todo where
  source : TodoSource
  id : String
  emailId : Option String
  threadId : Option String
  reminderId : Option String
  account : String
  group : String
  subject : String
  from' : String
  fromEmail : String
  summary : String
  urgency : Urgency
  reasoning : String
  date : String
  isStarred : Bool
  person : String
  deadline : Option String
  reminderState : ReminderState
deriving DecidableEq, Repr

/-- The `Email` shape consumed by `hashEmail` and `analyzeEmails`
(fields of `gmail.ts`'s Email used by the pipeline). -/
structure Email where
  id : String
  threadId : String
  subject : String
  from' : String
  fromEmail : String
  date : String
  snippet : String
  isStarred : Bool
  isUnread : Bool
deriving DecidableEq, Repr

/-- JavaScript string truthiness for an optional string field:
`undefined` and the empty string are falsy. -/
def jsTruthyStr : Option String → Bool
  | Option.none => false
  | Option.some s => s ≠ ""

/-! ## Fingerprint function (`hashEmail`, cache.ts) -/

/-- JavaScript ToInt32: wrap an integer into `[-2^31, 2^31)` modulo `2^32`.
This is what `x & x` and `x << 5` apply to their operands and results. -/
def toInt32 (n : Int) : Int :=
  let m := n % 4294967296
  if m < 2147483648 then m else m - 4294967296

/-- One step of the rolling hash: `hash = (hash << 5) - hash + char`
followed by `hash = hash & hash` (both JS int32 coercions explicit). -/
def hashStep (h : Int) (c : Nat) : Int :=
  toInt32 (toInt32 (h * 32) - h + (c : Int))

/-- The 32-bit rolling hash of a string, as computed by the loop in
`hashEmail` over `charCodeAt` values. -/
def jsHash (s : String) : Int :=
  s.data.foldl (fun h c => hashStep h c.toNat) 0

/-- Base-36 digit character, as produced by JS `Number.prototype.toString(36)`:
`0`-`9` then `a`-`z`. -/
def digitChar36 (n : Nat) : Char :=
  if n < 10 then Char.ofNat (48 + n) else Char.ofNat (87 + n)

/-- Big-endian base-36 digit rendering with explicit fuel (the recursion
divides by 36 each step, so `n` units of fuel always suffice). -/
def toB36Go : Nat → Nat → List Char
  | 0, _ => []
  | fuel + 1, n =>
      if n < 36 then [digitChar36 n]
      else toB36Go fuel (n / 36) ++ [digitChar36 (n % 36)]

/-- Big-endian base-36 digit list of a natural number, no leading zeros. -/
def toB36 (n : Nat) : List Char := toB36Go (n + 1) n

/-- JS `Number.prototype.toString(36)` on an integer value: a minus sign
followed by the base-36 magnitude for negatives. -/
def intToStr36 (i : Int) : String :=
  if i < 0 then "-" ++ String.mk (toB36 i.natAbs) else String.mk (toB36 i.toNat)

/-- The `[...].join("|")` content string hashed by `hashEmail`: the six
analysis-relevant attributes in their fixed order. -/
def emailContent (e : Email) : String :=
  e.subject ++ "|" ++ e.from' ++ "|" ++ e.date ++ "|" ++ e.snippet ++ "|" ++
    (if e.isStarred then "1" else "0") ++ "|" ++ (if e.isUnread then "1" else "0")

/-- `hashEmail` from cache.ts: rolling 32-bit hash of the joined attribute
string, rendered in base 36. -/
def hashEmail (e : Email) : String :=
  intToStr36 (jsHash (emailContent e))

/-! ## Persistent analysis store (cache.ts) -/

/-- A row of the `analyzed_emails` table (`todo` is the parsed
`todo_json`, `Option.none` for SQL NULL). -/
structure CachedRow where
  emailId : String
  account : String
  threadId : Option String
  analyzedAt : Int
  emailHash : String
  isTodo : Bool
  todo : Option Todo
deriving DecidableEq, Repr

/-- The table contents. `email_id` is the primary key, so point lookups read
the first matching row and INSERT OR REPLACE replaces it. -/
def DB := List CachedRow

/-- JS `Map.set`: overwrite the binding for a key. -/
def mapSet (m : List (String × α)) (k : String) (v : α) : List (String × α) :=
  (k, v) :: m.filter (fun p => ¬ (p.1 = k))

/-- JS `Map.get`: the latest binding for a key, if any. -/
def mapGet (m : List (String × α)) (k : String) : Option α :=
  (m.find? (fun p => p.1 = k)).map (·.2)

/-- `SELECT ... FROM analyzed_emails WHERE email_id = ?`. -/
def dbFind (db : DB) (emailId : String) : Option CachedRow :=
  db.find? (fun r => r.emailId = emailId)

/-- `getCachedAnalysis` from cache.ts: absent row or fingerprint mismatch is
a miss (`Option.none`). -/
def getCachedAnalysis (db : DB) (emailId currentHash : String) : Option CachedRow :=
  match dbFind db emailId with
  | Option.none => Option.none
  | Option.some row =>
      if row.emailHash ≠ currentHash then Option.none else Option.some row

/-- `getCachedTodos` from cache.ts: rows with `email_id IN ids AND is_todo = 1
AND todo_json IS NOT NULL`, collected into a map keyed by email id. -/
def getCachedTodos (db : DB) (emailIds : List String) : List (String × Todo) :=
  if emailIds.isEmpty then []
  else
    (db.filter (fun r => r.emailId ∈ emailIds ∧ r.isTodo ∧ r.todo.isSome)).foldl
      (fun m r =>
        match r.todo with
        | Option.some t => mapSet m r.emailId t
        | Option.none => m) []

/-- `INSERT OR REPLACE` keyed on the `email_id` primary key. -/
def upsertRow (db : DB) (row : CachedRow) : DB :=
  row :: db.filter (fun r => ¬ (r.emailId = row.emailId))

/-- Input shape of `cacheAnalysisBatch` (one result record per batch item). -/
structure CacheEntry where
  emailId : String
  account : String
  threadId : Option String
  emailHash : String
  isTodo : Bool
  todo : Option Todo
deriving DecidableEq, Repr

/-- `cacheAnalysisBatch` from cache.ts: upsert every entry with one shared
timestamp. The SQLite `db.transaction` wrapper makes the whole call one
atomic durable step, which is why the crash model below only exposes
batch-boundary states. -/
def cacheAnalysisBatch (db : DB) (results : List CacheEntry) (now : Int) : DB :=
  results.foldl
    (fun d r =>
      upsertRow d
        { emailId := r.emailId, account := r.account, threadId := r.threadId,
          analyzedAt := now, emailHash := r.emailHash, isTodo := r.isTodo,
          todo := r.todo }) db

/-! ## Reasoning backend adapter (`callLLM`, claude.ts) -/

/-- The configuration fields `callLLM` reads (config.ts `Config`). -/
structure Config where
  anthropicApiKey : Option String
  preferClaudeCli : Option Bool
deriving DecidableEq, Repr

/-- `config?.anthropicApiKey || process.env.ANTHROPIC_API_KEY` with JS
falsiness: the resolved key is `Option.none` when neither source holds a
nonempty string. -/
def resolveApiKey (config : Option Config) (envKey : Option String) : Option String :=
  let cfgKey := config.bind (·.anthropicApiKey)
  if jsTruthyStr cfgKey then cfgKey
  else if jsTruthyStr envKey then envKey
  else Option.none

/-- `callLLM` from claude.ts. External effects are inputs: `cliAvailable` is
`isClaudeCliAvailable()`, `cliResult` the outcome of `callLLMCli` were it
invoked, `apiResult` the outcome of `callAnthropicApi` for a given key.
An `Except.error` models a thrown exception. -/
def callLLM (config : Option Config) (cliAvailable : Bool)
    (cliResult : Except String String) (envKey : Option String)
    (apiResult : String → Except String String) : Except String String :=
  let preferCli := ¬ (config.bind (·.preferClaudeCli) = Option.some false)
  let apiKey := resolveApiKey config envKey
  let afterCli : Option (Except String String) :=
    if preferCli ∧ cliAvailable then
      match cliResult with
      | Except.ok s => Option.some (Except.ok s)
      | Except.error e =>
          if apiKey.isSome then Option.none else Option.some (Except.error e)
    else Option.none
  match afterCli with
  | Option.some r => r
  | Option.none =>
      match apiKey with
      | Option.some k => apiResult k
      | Option.none =>
          Except.error "No LLM available. Install Claude CLI or set ANTHROPIC_API_KEY."

/-! ## Batch analysis orchestrator (`analyzeEmails`, claude.ts) -/

/-- One per-account input group of `analyzeEmails`. -/
structure EmailsGroup where
  account : String
  group : String
  emails : List Email
deriving Repr

/-- The flattened per-email record with its computed fingerprint
(`EmailWithMeta` in claude.ts). -/
structure EmailWithMeta where
  account : String
  group : String
  email : Email
  hash : String
deriving DecidableEq, Repr

/-- The flatten-and-hash step of `analyzeEmails`. -/
def flattenEmails (input : List EmailsGroup) : List EmailWithMeta :=
  input.foldr
    (fun g acc =>
      g.emails.map
        (fun e => { account := g.account, group := g.group, email := e, hash := hashEmail e })
      ++ acc) []

/-- The cache-hit contribution of one hit row: an item only when the row is
actionable and carries a payload (`cached.isTodo && cached.todo`), with the
source field forced to `email`. -/
def cachedTodoOf (c : CachedRow) : Option Todo :=
  if c.isTodo then c.todo.map (fun t => { t with source := TodoSource.email })
  else Option.none

/-- The hit-derived todos collected by the cache-check loop. -/
def collectCachedTodos (db : DB) (items : List EmailWithMeta) : List Todo :=
  items.filterMap (fun it => (getCachedAnalysis db it.email.id it.hash).bind cachedTodoOf)

/-- The miss set of the cache-check loop. -/
def uncachedOf (db : DB) (items : List EmailWithMeta) : List EmailWithMeta :=
  items.filter (fun it => (getCachedAnalysis db it.email.id it.hash).isNone)

/-- Consecutive `n`-sized slices, with explicit fuel (each step drops `n ≥ 1`
elements, so `l.length` units of fuel always suffice). -/
def chunksOfGo (n : Nat) : Nat → List α → List (List α)
  | _, [] => []
  | 0, _ => []
  | fuel + 1, l => l.take n :: chunksOfGo n fuel (l.drop n)

/-- Slicing into consecutive batches of `n` (the `BATCH_SIZE` slices of the
batch loop). -/
def chunksOf (n : Nat) (l : List α) : List (List α) :=
  chunksOfGo n l.length l

/-- The `todosByEmailId` map built from one batch response
(`if (todo.emailId) map.set(...)`). -/
def todosByEmailId (batchTodos : List Todo) : List (String × Todo) :=
  batchTodos.foldl
    (fun m t =>
      match t.emailId with
      | Option.some eid => if eid ≠ "" then mapSet m eid t else m
      | Option.none => m) []

/-- The cache entries written for one batch: one entry per batch item,
actionable iff the response mapped a todo onto its email id. -/
def batchCacheEntries (batch : List EmailWithMeta) (m : List (String × Todo)) :
    List CacheEntry :=
  batch.map (fun item =>
    let todo := mapGet m item.email.id
    { emailId := item.email.id, account := item.account,
      threadId := Option.some item.email.threadId, emailHash := item.hash,
      isTodo := todo.isSome, todo := todo })

/-- One iteration of the batch loop: invoke the adapter once, force the
source tag, write the batch's cache entries atomically, and collect the
whole parsed response into the output list. -/
def processBatch (llm : List EmailWithMeta → List Todo) (now : Int) (db : DB)
    (batch : List EmailWithMeta) : DB × List Todo :=
  let batchTodos := (llm batch).map (fun t => { t with source := TodoSource.email })
  let m := todosByEmailId batchTodos
  (cacheAnalysisBatch db (batchCacheEntries batch m) now, batchTodos)

/-- The sequential batch loop; one adapter invocation per batch. -/
def runBatches (llm : List EmailWithMeta → List Todo) (now : Int) :
    DB → List (List EmailWithMeta) → DB × List Todo
  | db, [] => (db, [])
  | db, b :: bs =>
      let p := processBatch llm now db b
      let rest := runBatches llm now p.1 bs
      (rest.1, p.2 ++ rest.2)

/-- Result of one `analyzeEmails` run: the returned todos, the store state
left behind, and the number of adapter invocations performed. -/
structure AnalyzeOutcome where
  todos : List Todo
  db : DB
  llmCalls : Nat

/-- `analyzeEmails` from claude.ts over the embedded store. The adapter is
an oracle `llm` from a batch to its parsed todo response; `now` is the
`Date.now()` timestamp used for the batch writes. -/
def analyzeEmails (db : DB) (input : List EmailsGroup)
    (llm : List EmailWithMeta → List Todo) (now : Int) : AnalyzeOutcome :=
  let allEmails := flattenEmails input
  let cachedTodos := collectCachedTodos db allEmails
  let uncached := uncachedOf db allEmails
  if uncached.isEmpty then { todos := cachedTodos, db := db, llmCalls := 0 }
  else
    let batches := chunksOf 50 uncached
    let r := runBatches llm now db batches
    { todos := cachedTodos ++ r.2, db := r.1, llmCalls := batches.length }

/-- The durable store state when the process dies after the first `c`
per-batch transactions committed: each `cacheAnalysisBatch` call is one
SQLite transaction, so crash states are exactly batch-boundary prefixes. -/
def analyzeCrashDb (db : DB) (input : List EmailsGroup)
    (llm : List EmailWithMeta → List Todo) (now : Int) (c : Nat) : DB :=
  (runBatches llm now db ((chunksOf 50 (uncachedOf db (flattenEmails input))).take c)).1

/-! ## External tracker (reminders.ts) -/

/-- A tracker entry as returned by `remindctl list --json`. `dueDate` is the
ISO string of the source; calendar arithmetic on it is abstracted through a
`parseDay` parameter below. -/
structure Reminder where
  id : String
  title : String
  notes : Option String
  isCompleted : Bool
  listName : String
  dueDate : Option String
  priority : Option Nat
deriving DecidableEq, Repr

/-- The characters of `SIFT_PREFIX = "sift:email:"`. -/
def siftMarker : List Char := "sift:email:".data

/-- Membership in the regex class `[a-zA-Z0-9]`. -/
def isAlnumChar (c : Char) : Bool :=
  (48 ≤ c.toNat && c.toNat ≤ 57) || (97 ≤ c.toNat && c.toNat ≤ 122) ||
    (65 ≤ c.toNat && c.toNat ≤ 90)

/-- Whether `l` starts with `p`. -/
def startsWithChars (p l : List Char) : Bool :=
  decide (l.take p.length = p)

/-- JS `String.prototype.includes`. -/
def containsChars (needle : List Char) : List Char → Bool
  | [] => needle.isEmpty
  | c :: cs => startsWithChars needle (c :: cs) || containsChars needle cs

/-- The leftmost match of `/sift:email:([a-zA-Z0-9]+)/`: the capture is the
maximal nonempty alphanumeric run after the first marker occurrence that is
followed by at least one alphanumeric character. -/
def extractToken : List Char → Option String
  | [] => Option.none
  | c :: cs =>
      if startsWithChars siftMarker (c :: cs) then
        let tok := ((c :: cs).drop siftMarker.length).takeWhile isAlnumChar
        if tok.isEmpty then extractToken cs else Option.some (String.mk tok)
      else extractToken cs

/-- `getEmailReminderStates` from reminders.ts. The `remindctl` invocation is
an input: `Option.none` models any thrown error (tool unavailable, bad
JSON), which the `catch` turns into an empty map. -/
def getEmailReminderStates (execResult : Option (List Reminder)) :
    List (String × ReminderState) :=
  match execResult with
  | Option.none => []
  | Option.some reminders =>
      reminders.foldl
        (fun states r =>
          match r.notes with
          | Option.none => states
          | Option.some notes =>
              if containsChars siftMarker notes.data then
                match extractToken notes.data with
                | Option.some eid =>
                    mapSet states eid
                      (if r.isCompleted then ReminderState.completed
                       else ReminderState.pending)
                | Option.none => states
              else states) []

/-- `hasReminder` from reminders.ts. -/
def hasReminder (execResult : Option (List Reminder)) (emailId : String) : Bool :=
  (mapGet (getEmailReminderStates execResult) emailId).isSome

/-- The reminder-state hydration of the App init loop:
`reminderStates.get(todo.emailId ?? "") ?? "none"`. -/
def hydrateTodo (states : List (String × ReminderState)) (t : Todo) : Todo :=
  { t with reminderState := (mapGet states (t.emailId.getD "")).getD ReminderState.none }

/-- The active/backlog split of the App init loop: hydrate each analysis
todo, then send it to the backlog iff its parsed date is strictly before the
30-days-ago instant. `parseDay` abstracts `new Date(todo.date)` to a
totally ordered value; `thirtyDaysAgo` is the value of the instant the app
computes 30 days before the reference time. Returns `(active, old)`. -/
def splitTodos (result : List Todo) (states : List (String × ReminderState))
    (parseDay : String → Int) (thirtyDaysAgo : Int) : List Todo × List Todo :=
  result.foldl
    (fun acc t =>
      let t' := hydrateTodo states t
      if parseDay t.date < thirtyDaysAgo then (acc.1, acc.2 ++ [t'])
      else (acc.1 ++ [t'], acc.2)) ([], [])

/-- `urgencyToDue` from reminders.ts. -/
def urgencyToDue (_urgency : Urgency) (deadline : Option String) : Option String :=
  if ¬ jsTruthyStr deadline then Option.none
  else if deadline = Option.some "ASAP" then Option.none
  else deadline

/-- `urgencyToPriority` from reminders.ts. -/
def urgencyToPriority (urgency : Urgency) : Option String :=
  if urgency = Urgency.overdue then Option.some "high" else Option.none

/-- `CreateReminderResult` from reminders.ts. -/
structure CreateReminderResult where
  success : Bool
  alreadyExists : Bool
  list : Option String
  error : Option String
deriving DecidableEq, Repr

/-- `ReminderOptions` from reminders.ts. -/
structure ReminderOptions where
  title : Option String
  notes : Option String
deriving DecidableEq, Repr

/-- The note lines built by `createReminderFromTodo` (Gmail link, context,
and the trailing `sift:email:` back-reference token). -/
def reminderNoteLines (todo : Todo) (options : Option ReminderOptions) : List String :=
  let gmailUrl : Option String :=
    if jsTruthyStr todo.threadId then
      Option.some ("https://mail.google.com/mail/u/0/#inbox/" ++ todo.threadId.getD "")
    else Option.none
  (match gmailUrl with
   | Option.some u => [u, ""]
   | Option.none => []) ++
  (if jsTruthyStr (options.bind (·.notes)) then
    [(options.bind (·.notes)).getD "", "", "From: " ++ todo.from']
   else
    ["From: " ++ todo.from'] ++
      (if todo.reasoning ≠ "" then ["", todo.reasoning] else [])) ++
  ["", "sift:email:" ++ todo.emailId.getD ""]

/-- The `remindctl add` argument list built by `createReminderFromTodo`. -/
def createReminderArgs (todo : Todo) (list : String)
    (options : Option ReminderOptions) : List String :=
  let title :=
    if jsTruthyStr (options.bind (·.title)) then (options.bind (·.title)).getD ""
    else todo.summary
  let notes := String.intercalate "\n" (reminderNoteLines todo options)
  let due := urgencyToDue todo.urgency todo.deadline
  let priority := urgencyToPriority todo.urgency
  ["add", title, "--list", list, "--notes", notes] ++
    (match due with | Option.some d => ["--due", d] | Option.none => []) ++
    (match priority with | Option.some p => ["--priority", p] | Option.none => [])

/-- `createReminderFromTodo` from reminders.ts. Inputs model the external
effects: `listExec` is the `remindctl list` output read by `hasReminder`,
`spawn` the outcome of `spawnSync remindctl add` (exit status, stderr) were
it issued. The second component of the result is the argument list of the
create command actually issued, `Option.none` when no command was run. -/
def createReminderFromTodo (todo : Todo) (list : String)
    (options : Option ReminderOptions) (listExec : Option (List Reminder))
    (spawn : Except String (Int × String)) :
    CreateReminderResult × Option (List String) :=
  if ¬ jsTruthyStr todo.emailId then
    ({ success := false, alreadyExists := false, list := Option.none,
       error := Option.some "No email ID" }, Option.none)
  else if hasReminder listExec (todo.emailId.getD "") then
    ({ success := false, alreadyExists := true, list := Option.some list,
       error := Option.none }, Option.none)
  else
    let args := createReminderArgs todo list options
    match spawn with
    | Except.error e =>
        ({ success := false, alreadyExists := false, list := Option.none,
           error := Option.some e }, Option.some args)
    | Except.ok (status, stderrOut) =>
        if status ≠ 0 then
          ({ success := false, alreadyExists := false, list := Option.none,
             error := Option.some (if stderrOut = "" then "remindctl failed" else stderrOut) },
           Option.some args)
        else
          ({ success := true, alreadyExists := false, list := Option.some list,
             error := Option.none }, Option.some args)

/-- `reminderToUrgency` from reminders.ts, with `parseDay` abstracting the
date-only value of `new Date(dueDate)` and `today` the date-only value of
now (units: days). -/
def reminderToUrgency (parseDay : String → Int) (today : Int) (r : Reminder) : Urgency :=
  match r.dueDate with
  | Option.some s =>
      if parseDay s < today then Urgency.overdue
      else if parseDay s ≤ today + 7 then Urgency.this_week
      else if r.priority = Option.some 1 then Urgency.this_week
      else Urgency.when_you_can
  | Option.none =>
      if r.priority = Option.some 1 then Urgency.this_week
      else Urgency.when_you_can

/-- `isRelevantReminder` from reminders.ts. -/
def isRelevantReminder (parseDay : String → Int) (today : Int) (r : Reminder) : Bool :=
  if r.isCompleted then false
  else if (match r.notes with
           | Option.some n => startsWithChars siftMarker n.data
           | Option.none => false) then false
  else
    match r.dueDate with
    | Option.some s => parseDay s ≤ today + 7
    | Option.none => r.priority = Option.some 1

/-- `ReminderListConfig` from config.ts. -/
structure ReminderListConfig where
  list : String
  group : String
deriving DecidableEq, Repr

/-- The todo built from one relevant tracker entry in
`fetchPendingReminders`; `fmt` abstracts `formatDeadline`'s calendar
rendering and `nowIso` the `new Date().toISOString()` fallback. -/
def reminderTodoOf (cfg : ReminderListConfig) (parseDay : String → Int)
    (today : Int) (fmt : String → String) (nowIso : String) (r : Reminder) : Todo :=
  let deadline := if jsTruthyStr r.dueDate then Option.some (fmt (r.dueDate.getD "")) else Option.none
  { source := TodoSource.reminder, id := "reminder-" ++ r.id,
    emailId := Option.none, threadId := Option.none, reminderId := Option.some r.id,
    account := cfg.list, group := cfg.group, subject := r.title, from' := "",
    fromEmail := "", summary := r.title,
    urgency := reminderToUrgency parseDay today r,
    reasoning :=
      if jsTruthyStr r.dueDate then "Due: " ++ (deadline.getD "null")
      else "High priority",
    date := if jsTruthyStr r.dueDate then r.dueDate.getD "" else nowIso,
    isStarred := false, person := "", deadline := deadline,
    reminderState := ReminderState.pending }

/-- `fetchPendingReminders` from reminders.ts: each list's `remindctl`
output is an input, `Option.none` modelling a thrown error that the
per-list `catch` silently skips. -/
def fetchPendingReminders
    (lists : List (ReminderListConfig × Option (List Reminder)))
    (parseDay : String → Int) (today : Int) (fmt : String → String)
    (nowIso : String) : List Todo :=
  lists.foldl
    (fun todos p =>
      match p.2 with
      | Option.none => todos
      | Option.some reminders =>
          todos ++
            (reminders.filter (isRelevantReminder parseDay today)).map
              (reminderTodoOf p.1 parseDay today fmt nowIso)) []

/-! ## Windowed viewport (TodoList.tsx) -/

/-- An element of the flat header+item sequence built by `TodoList`. -/
inductive ListItem where
  | header (title icon color : String) (count : Nat)
  | todo (t : Todo) (globalIndex : Nat)
deriving DecidableEq, Repr

/-- `VISIBLE_ITEMS = Math.max(5, terminalHeight - 8)`. -/
def visibleItemsOf (terminalHeight : Nat) : Nat :=
  max 5 (terminalHeight - 8)

/-- The `[windowStart, windowEnd)` todo-index window: centered on the
selection (`half` above) then clamped to the end of the list. -/
def windowBounds (visible selectedIndex len : Nat) : Nat × Nat :=
  let half := visible / 2
  let ws := selectedIndex - half
  let we := ws + visible
  if we > len then (len - visible, len) else (ws, we)

/-- The todo entries pushed by the `for todo of items` loop, carrying the
running `globalIndex` starting at `n`. -/
def todoEntriesFrom (n : Nat) : List Todo → List ListItem
  | [] => []
  | t :: ts => ListItem.todo t n :: todoEntriesFrom (n + 1) ts

/-- `addSection`: skip empty sections, otherwise append a header followed by
the section's todos carrying consecutive global indices. -/
def addSection (acc : List ListItem × Nat) (title icon : String)
    (items : List Todo) (color : String) : List ListItem × Nat :=
  if items.length = 0 then acc
  else
    (acc.1 ++ ListItem.header title icon color items.length ::
        todoEntriesFrom acc.2 items,
     acc.2 + items.length)

/-- The flat header+item sequence of `TodoList` for a todo list. -/
def flatListOf (todos : List Todo) : List ListItem :=
  let overdue := todos.filter (fun t => t.urgency = Urgency.overdue)
  let thisWeek := todos.filter (fun t => t.urgency = Urgency.this_week)
  let whenYouCan := todos.filter (fun t => t.urgency = Urgency.when_you_can)
  (addSection
    (addSection
      (addSection ([], 0) "OVERDUE" "🔴" overdue "red")
      "THIS WEEK" "🟡" thisWeek "yellow")
    "WHEN YOU CAN" "🔵" whenYouCan "cyan").1

/-- The first flat-index scan: find the flat position of todo number `ws`,
stepping back over an immediately preceding section header. `prev` carries
`flatList[i-1]`; a completed scan leaves the initial value 0. -/
def findFlatStartGo (ws : Nat) : List ListItem → Option ListItem → Nat → Nat → Nat
  | [], _, _, _ => 0
  | item :: rest, prev, i, cnt =>
      match item with
      | ListItem.todo _ _ =>
          if cnt = ws then
            match prev with
            | Option.some (ListItem.header _ _ _ _) => i - 1
            | _ => i
          else findFlatStartGo ws rest (Option.some item) (i + 1) (cnt + 1)
      | ListItem.header _ _ _ _ =>
          findFlatStartGo ws rest (Option.some item) (i + 1) cnt

/-- `flatStart` of `TodoList`. -/
def findFlatStart (l : List ListItem) (ws : Nat) : Nat :=
  findFlatStartGo ws l Option.none 0 0

/-- The second scan: one past the flat position of todo number `we - 1`; a
completed scan leaves the initial value `flatList.length`. -/
def findFlatEndGo (target total : Nat) : List ListItem → Nat → Nat → Nat
  | [], _, _ => total
  | item :: rest, i, cnt =>
      match item with
      | ListItem.todo _ _ =>
          if cnt = target then i + 1 else findFlatEndGo target total rest (i + 1) (cnt + 1)
      | ListItem.header _ _ _ _ => findFlatEndGo target total rest (i + 1) cnt

/-- `flatEnd` of `TodoList`. -/
def findFlatEnd (l : List ListItem) (we : Nat) : Nat :=
  findFlatEndGo (we - 1) l.length l 0 0

/-- The todo window of a render: `windowBounds` over the list length. -/
def viewportWindow (todos : List Todo) (selectedIndex terminalHeight : Nat) : Nat × Nat :=
  windowBounds (visibleItemsOf terminalHeight) selectedIndex todos.length

/-- `visibleItems = flatList.slice(flatStart, flatEnd)`. -/
def viewportSlice (todos : List Todo) (selectedIndex terminalHeight : Nat) : List ListItem :=
  let flat := flatListOf todos
  let w := viewportWindow todos selectedIndex terminalHeight
  let fs := findFlatStart flat w.1
  let fe := findFlatEnd flat w.2
  (flat.drop fs).take (fe - fs)

/-- The count rendered by the `↑ N more above` indicator (shown iff
positive): `windowStart`. -/
def moreAboveCount (todos : List Todo) (selectedIndex terminalHeight : Nat) : Nat :=
  (viewportWindow todos selectedIndex terminalHeight).1

/-- The count rendered by the `↓ N more below` indicator (shown iff
`windowEnd < todos.length`): `todos.length - windowEnd`. -/
def moreBelowCount (todos : List Todo) (selectedIndex terminalHeight : Nat) : Nat :=
  todos.length - (viewportWindow todos selectedIndex terminalHeight).2

/-- Whether a flat entry is a todo (not a section header). -/
def isTodoItem : ListItem → Bool
  | ListItem.todo _ _ => true
  | ListItem.header _ _ _ _ => false

/-- Number of todo entries (headers excluded) in a flat segment. -/
def countTodoEntries (l : List ListItem) : Nat :=
  (l.filter isTodoItem).length

/-! ## Verification-layer definitions (not part of the source) -/

/-- Value of a base-36 digit character (inverse of `digitChar36`). -/
def digitVal36 (c : Char) : Nat :=
  if c.toNat ≤ 57 then c.toNat - 48 else c.toNat - 87

/-- Big-endian base-36 decoder, left inverse of `toB36`. -/
def decodeB36 (l : List Char) : Nat :=
  l.foldl (fun a c => a * 36 + digitVal36 c) 0

/-- The exact (unwrapped) polynomial the rolling hash computes modulo
`2^32`: `h * 31 + c` per character. -/
def specFold (h : Int) (l : List Char) : Int :=
  l.foldl (fun a c => 31 * a + (c.toNat : Int)) h

/-- Flat position of todo entry number `k` in a flat segment. -/
def posOfTodo : List ListItem → Nat → Option Nat
  | [], _ => Option.none
  | ListItem.todo _ _ :: _, 0 => Option.some 0
  | ListItem.todo _ _ :: rest, k + 1 => (posOfTodo rest k).map (· + 1)
  | ListItem.header _ _ _ _ :: rest, k => (posOfTodo rest k).map (· + 1)

/-- Concrete email used by counterexamples and witnesses. -/
def sampleEmail (id subject : String) (starred unread : Bool) : Email :=
  { id := id, threadId := "t-" ++ id, subject := subject,
    from' := "Alice <alice@example.com>", fromEmail := "alice@example.com",
    date := "2026-01-01", snippet := "please review", isStarred := starred,
    isUnread := unread }

/-- Concrete todo used by witnesses. -/
def sampleTodo : Todo :=
  { source := TodoSource.email, id := "t1", emailId := Option.some "m1",
    threadId := Option.some "th1", reminderId := Option.none, account := "acct",
    group := "personal", subject := "s", from' := "Alice", fromEmail := "a@x",
    summary := "Reply to Alice", urgency := Urgency.this_week, reasoning := "r",
    date := "2026-01-01", isStarred := false, person := "Alice",
    deadline := Option.none, reminderState := ReminderState.none }

/-- Concrete actionable cache row used by witnesses. -/
def sampleRow : CachedRow :=
  { emailId := "m1", account := "acct", threadId := Option.some "th1",
    analyzedAt := 0, emailHash := "h", isTodo := true,
    todo := Option.some sampleTodo }

/-- Concrete actionable cache row with a NULL payload, used by witnesses. -/
def sampleRowNull : CachedRow :=
  { sampleRow with todo := Option.none }

/-- Concrete tracker entry carrying a back-reference to `sampleTodo`'s
email, used by witnesses. -/
def sampleReminder : Reminder :=
  { id := "r1", title := "Reply to Alice", notes := Option.some "note\nsift:email:m1",
    isCompleted := false, listName := "Work", dueDate := Option.none,
    priority := Option.none }

/-- The cache row that `analyzeEmails` writes for batch item `it` of batch
`b` (the `cacheAnalysisBatch` entry built in the batch loop, with the
shared `Date.now()` timestamp). -/
def writtenRowOf (llm : List EmailWithMeta → List Todo) (now : Int)
    (b : List EmailWithMeta) (it : EmailWithMeta) : CachedRow :=
  let m := todosByEmailId ((llm b).map (fun t => { t with source := TodoSource.email }))
  { emailId := it.email.id, account := it.account,
    threadId := Option.some it.email.threadId, analyzedAt := now,
    emailHash := it.hash, isTodo := (mapGet m it.email.id).isSome,
    todo := mapGet m it.email.id }

/-- Concrete input group used by witnesses. -/
def sampleGroup : EmailsGroup :=
  { account := "acct", group := "personal",
    emails := [sampleEmail "m1" "Hello" true false] }

/-- Concrete cache row whose fingerprint matches `sampleGroup`'s email,
used by witnesses. -/
def sampleEmailRow : CachedRow :=
  { emailId := "m1", account := "acct", threadId := Option.some "t-m1",
    analyzedAt := 0, emailHash := hashEmail (sampleEmail "m1" "Hello" true false),
    isTodo := true, todo := Option.some sampleTodo }

/-- A backend response todo whose emailId matches no input item
("orphan"), used by the C2 counterexample. -/
def orphanTodo : Todo :=
  { sampleTodo with id := "o1", emailId := Option.some "ghost" }

/-- Todo with a given urgency and numeric id, for the viewport example. -/
def mkView (u : Urgency) (n : Nat) : Todo :=
  { sampleTodo with id := toString n, urgency := u }

/-- The spec's viewport example list: 2 overdue, 10 this_week, 11
when_you_can (23 items). -/
def viewTodos : List Todo :=
  (List.range 2).map (mkView Urgency.overdue) ++
    (List.range 10).map (mkView Urgency.this_week) ++
    (List.range 11).map (mkView Urgency.when_you_can)

/-- Concrete two-email input group used by witnesses. -/
def sampleGroup2 : EmailsGroup :=
  { account := "acct", group := "personal",
    emails := [sampleEmail "m1" "Hello" true false,
               sampleEmail "m2" "World" false true] }

/-! # Lemmas about the fingerprint function -/

theorem toInt32_emod (n : Int) : toInt32 n % 4294967296 = n % 4294967296 := by
  show (if n % 4294967296 < 2147483648 then n % 4294967296
        else n % 4294967296 - 4294967296) % 4294967296 = n % 4294967296
  split
  · exact Int.emod_emod_of_dvd n dvd_rfl
  · simp [Int.sub_emod, Int.emod_emod_of_dvd n dvd_rfl]

theorem toInt32_modeq (n : Int) : Int.ModEq 4294967296 (toInt32 n) n :=
  toInt32_emod n

theorem hashStep_modeq (h : Int) (c : Nat) :
    Int.ModEq 4294967296 (hashStep h c) (31 * h + c) := by
  unfold hashStep
  have h1 : Int.ModEq 4294967296 (toInt32 (h * 32)) (h * 32) := toInt32_modeq _
  have h2 : Int.ModEq 4294967296 (toInt32 (h * 32) - h + (c : Int)) (31 * h + c) := by
    have h3 := Int.ModEq.add_right (c : Int) (Int.ModEq.sub_right h h1)
    have h4 : h * 32 - h + (c : Int) = 31 * h + c := by ring
    rw [h4] at h3
    exact h3
  exact Int.ModEq.trans (toInt32_modeq _) h2

theorem jsHash_fold_modeq (l : List Char) :
    ∀ h1 h2 : Int, Int.ModEq 4294967296 h1 h2 →
      Int.ModEq 4294967296 (l.foldl (fun h c => hashStep h c.toNat) h1) (specFold h2 l) := by
  induction l with
  | nil => intro h1 h2 hm; exact hm
  | cons c cs ih =>
      intro h1 h2 hm
      simp only [List.foldl_cons, specFold] at *
      apply ih
      have h5 : Int.ModEq 4294967296 (31 * h1 + c.toNat) (31 * h2 + c.toNat) :=
        Int.ModEq.add_right _ (Int.ModEq.mul_left 31 hm)
      exact Int.ModEq.trans (hashStep_modeq h1 c.toNat) h5

theorem jsHash_modeq (s : String) :
    Int.ModEq 4294967296 (jsHash s) (specFold 0 s.data) :=
  jsHash_fold_modeq s.data 0 0 (Int.ModEq.refl 0)

theorem digitVal36_digitChar36 : ∀ k < 36, digitVal36 (digitChar36 k) = k := by decide

theorem digitChar36_ne_dash : ∀ k < 36, digitChar36 k ≠ '-' := by decide

theorem decodeB36_toB36Go :
    ∀ fuel n : Nat, n ≤ fuel → decodeB36 (toB36Go (fuel + 1) n) = n := by
  intro fuel
  induction fuel with
  | zero =>
      intro n hn
      have h0 : n = 0 := Nat.le_zero.mp hn
      subst h0
      simp [toB36Go, decodeB36, digitVal36_digitChar36 0 (by omega)]
  | succ fuel ih =>
      intro n hn
      by_cases h36 : n < 36
      · simp [toB36Go, h36, decodeB36, digitVal36_digitChar36 n h36]
      · have hrec : toB36Go (fuel + 1 + 1) n =
            toB36Go (fuel + 1) (n / 36) ++ [digitChar36 (n % 36)] := by
          conv_lhs => rw [toB36Go]
          simp [h36]
        rw [hrec]
        have hdiv : n / 36 ≤ fuel := by
          have := Nat.div_lt_self (by omega : 0 < n) (by omega : 1 < 36)
          omega
        have hmod : n % 36 < 36 := Nat.mod_lt n (by omega)
        unfold decodeB36
        rw [List.foldl_append]
        have := ih (n / 36) hdiv
        unfold decodeB36 at this
        rw [this]
        simp [digitVal36_digitChar36 (n % 36) hmod]
        omega

theorem decodeB36_toB36 (n : Nat) : decodeB36 (toB36 n) = n :=
  decodeB36_toB36Go n n le_rfl

theorem toB36_inj {a b : Nat} (h : toB36 a = toB36 b) : a = b := by
  have := congrArg decodeB36 h
  rwa [decodeB36_toB36, decodeB36_toB36] at this

theorem toB36Go_head :
    ∀ fuel n : Nat, ∃ k rest, k < 36 ∧ toB36Go (fuel + 1) n = digitChar36 k :: rest := by
  intro fuel
  induction fuel with
  | zero =>
      intro n
      by_cases h36 : n < 36
      · exact ⟨n, [], h36, by simp [toB36Go, h36]⟩
      · refine ⟨n % 36, [], Nat.mod_lt n (by omega), ?_⟩
        conv_lhs => rw [toB36Go]
        simp [h36, toB36Go]
  | succ fuel ih =>
      intro n
      by_cases h36 : n < 36
      · exact ⟨n, [], h36, by simp [toB36Go, h36]⟩
      · obtain ⟨k, rest, hk, heq⟩ := ih (n / 36)
        refine ⟨k, rest ++ [digitChar36 (n % 36)], hk, ?_⟩
        conv_lhs => rw [toB36Go]
        simp [h36, heq]

theorem intToStr36_inj {i j : Int} (h : intToStr36 i = intToStr36 j) : i = j := by
  by_cases hi : i < 0 <;> by_cases hj : j < 0
  · rw [intToStr36, intToStr36, if_pos hi, if_pos hj] at h
    have hdata := congrArg String.data h
    rw [String.data_append, String.data_append] at hdata
    have hAB : toB36 i.natAbs = toB36 j.natAbs := by simpa using hdata
    have := toB36_inj hAB
    omega
  · exfalso
    rw [intToStr36, intToStr36, if_pos hi, if_neg hj] at h
    have hdata := congrArg String.data h
    rw [String.data_append] at hdata
    obtain ⟨k, rest, hk, heq⟩ := toB36Go_head j.toNat j.toNat
    rw [show toB36 j.toNat = digitChar36 k :: rest from heq] at hdata
    have hh : '-' = digitChar36 k := (List.cons.inj (by simpa using hdata)).1
    exact digitChar36_ne_dash k hk hh.symm
  · exfalso
    rw [intToStr36, intToStr36, if_neg hi, if_pos hj] at h
    have hdata := congrArg String.data h
    rw [String.data_append] at hdata
    obtain ⟨k, rest, hk, heq⟩ := toB36Go_head i.toNat i.toNat
    rw [show toB36 i.toNat = digitChar36 k :: rest from heq] at hdata
    have hh : digitChar36 k = '-' := (List.cons.inj (by simpa using hdata)).1
    exact digitChar36_ne_dash k hk hh
  · rw [intToStr36, intToStr36, if_neg hi, if_neg hj] at h
    have hdata := congrArg String.data h
    have hAB : toB36 i.toNat = toB36 j.toNat := by simpa using hdata
    have := toB36_inj hAB
    omega

theorem specFold_sub (l : List Char) :
    ∀ a b : Int, specFold a l - specFold b l = 31 ^ l.length * (a - b) := by
  induction l with
  | nil => intro a b; simp [specFold]
  | cons c cs ih =>
      intro a b
      simp only [specFold, List.foldl_cons, List.length_cons] at *
      rw [ih (31 * a + c.toNat) (31 * b + c.toNat)]
      ring

theorem fold_flip_ne (A : Int) (L : List Char) :
    List.foldl (fun h c => hashStep h c.toNat) (hashStep A 49) L ≠
      List.foldl (fun h c => hashStep h c.toNat) (hashStep A 48) L := by
  intro heq
  have m1 := jsHash_fold_modeq L (hashStep A 49) (31 * A + 49) (hashStep_modeq A 49)
  have m2 := jsHash_fold_modeq L (hashStep A 48) (31 * A + 48) (hashStep_modeq A 48)
  have hmm : Int.ModEq 4294967296 (specFold (31 * A + 49) L) (specFold (31 * A + 48) L) :=
    Int.ModEq.trans (Int.ModEq.symm m1) (heq ▸ m2)
  have hdvd := Int.ModEq.dvd hmm
  have hsub : specFold (31 * A + 48) L - specFold (31 * A + 49) L =
      31 ^ L.length * (-1) := by
    rw [specFold_sub]; ring
  rw [hsub] at hdvd
  have h2 : (2 : Int) ∣ 31 ^ L.length * (-1) := dvd_trans (by norm_num) hdvd
  have h31 : (2 : Int) ∣ 31 ^ L.length := (dvd_neg).mp (by simpa using h2)
  have h31' : (2 : Int) ∣ 31 := (Int.prime_two).dvd_of_dvd_pow h31
  norm_num at h31'

theorem hashEmail_ne_of_starred (e1 e2 : Email)
    (hs : e1.subject = e2.subject) (hf : e1.from' = e2.from')
    (hd : e1.date = e2.date) (hn : e1.snippet = e2.snippet)
    (hu : e1.isUnread = e2.isUnread) (hst : e1.isStarred ≠ e2.isStarred) :
    hashEmail e1 ≠ hashEmail e2 := by
  intro heq
  have hint : jsHash (emailContent e1) = jsHash (emailContent e2) := intToStr36_inj heq
  have key : ∀ e : Email, jsHash (emailContent e) =
      List.foldl (fun h c => hashStep h c.toNat)
        (List.foldl (fun h c => hashStep h c.toNat)
          (List.foldl (fun h c => hashStep h c.toNat) 0
            (e.subject.data ++ ['|'] ++ e.from'.data ++ ['|'] ++ e.date.data ++
              ['|'] ++ e.snippet.data ++ ['|']))
          (if e.isStarred then "1" else "0").data)
        ('|' :: (if e.isUnread then "1" else "0").data) := by
    intro e
    simp only [jsHash, emailContent, String.data_append, List.append_assoc,
      List.foldl_append, List.foldl_cons, List.foldl_nil]
  rw [key e1, key e2, hs, hf, hd, hn, hu] at hint
  set A : Int := List.foldl (fun h c => hashStep h c.toNat) 0
      (e2.subject.data ++ ['|'] ++ e2.from'.data ++ ['|'] ++ e2.date.data ++
        ['|'] ++ e2.snippet.data ++ ['|']) with hA
  set L : List Char := ('|' :: (if e2.isUnread then "1" else "0").data) with hL
  cases h1 : e1.isStarred <;> cases h2 : e2.isStarred <;> rw [h1, h2] at hint hst
  · exact hst rfl
  · have r0 : List.foldl (fun h c => hashStep h c.toNat) A
        (if (false = true) then ("1" : String) else "0").data = hashStep A 48 := rfl
    have r1 : List.foldl (fun h c => hashStep h c.toNat) A
        (if (true = true) then ("1" : String) else "0").data = hashStep A 49 := rfl
    rw [r0, r1] at hint
    exact fold_flip_ne A L hint.symm
  · have r0 : List.foldl (fun h c => hashStep h c.toNat) A
        (if (false = true) then ("1" : String) else "0").data = hashStep A 48 := rfl
    have r1 : List.foldl (fun h c => hashStep h c.toNat) A
        (if (true = true) then ("1" : String) else "0").data = hashStep A 49 := rfl
    rw [r0, r1] at hint
    exact fold_flip_ne A L hint
  · exact hst rfl

theorem hashEmail_eq_of_attrs (e1 e2 : Email)
    (hs : e1.subject = e2.subject) (hf : e1.from' = e2.from')
    (hd : e1.date = e2.date) (hn : e1.snippet = e2.snippet)
    (hst : e1.isStarred = e2.isStarred) (hu : e1.isUnread = e2.isUnread) :
    hashEmail e1 = hashEmail e2 := by
  unfold hashEmail emailContent
  rw [hs, hf, hd, hn, hst, hu]

/-- C5: the fingerprint is a pure deterministic function of the six
attributes subject, from, date, snippet, isStarred, isUnread (equal
attributes give an equal fingerprint), and a change of the isStarred flag
alone always changes the fingerprint, so two items identical except for
isStarred are independently cacheable. (The original claim's stronger part
— that changing any single attribute always changes the fingerprint — is
refuted by the counterexample below.) -/
theorem claim_C5 :
    (∀ e1 e2 : Email, e1.subject = e2.subject → e1.from' = e2.from' →
      e1.date = e2.date → e1.snippet = e2.snippet →
      e1.isStarred = e2.isStarred → e1.isUnread = e2.isUnread →
      hashEmail e1 = hashEmail e2) ∧
    (∀ e1 e2 : Email, e1.subject = e2.subject → e1.from' = e2.from' →
      e1.date = e2.date → e1.snippet = e2.snippet →
      e1.isUnread = e2.isUnread → e1.isStarred ≠ e2.isStarred →
      hashEmail e1 ≠ hashEmail e2) :=
  ⟨fun e1 e2 hs hf hd hn hst hu => hashEmail_eq_of_attrs e1 e2 hs hf hd hn hst hu,
   fun e1 e2 hs hf hd hn hu hst => hashEmail_ne_of_starred e1 e2 hs hf hd hn hu hst⟩

/-- C5 witness: two emails equal in all six attributes (different ids) get
the same fingerprint; flipping only the starred flag changes it. -/
theorem claim_C5_witness :
    hashEmail (sampleEmail "w1" "Hello" true false) =
      hashEmail (sampleEmail "w2" "Hello" true false) ∧
    hashEmail (sampleEmail "w3" "Hello" false true) ≠
      hashEmail (sampleEmail "w4" "Hello" true true) :=
  ⟨claim_C5.1 _ _ rfl rfl rfl rfl rfl rfl,
   claim_C5.2 _ _ rfl rfl rfl rfl rfl (by decide)⟩

set_option maxRecDepth 100000 in
/-- C5 counterexample: a subject-only change (`"Aa"` to `"BB"`) leaves the
fingerprint unchanged — the rolling 31·h+c hash collides — refuting
"changing any single one of the six attributes yields a different
fingerprint". -/
theorem claim_C5_counterexample :
    (sampleEmail "m1" "Aa" false false).subject ≠
      (sampleEmail "m1" "BB" false false).subject ∧
    (sampleEmail "m1" "Aa" false false).from' =
      (sampleEmail "m1" "BB" false false).from' ∧
    (sampleEmail "m1" "Aa" false false).date =
      (sampleEmail "m1" "BB" false false).date ∧
    (sampleEmail "m1" "Aa" false false).snippet =
      (sampleEmail "m1" "BB" false false).snippet ∧
    (sampleEmail "m1" "Aa" false false).isStarred =
      (sampleEmail "m1" "BB" false false).isStarred ∧
    (sampleEmail "m1" "Aa" false false).isUnread =
      (sampleEmail "m1" "BB" false false).isUnread ∧
    hashEmail (sampleEmail "m1" "Aa" false false) =
      hashEmail (sampleEmail "m1" "BB" false false) :=
  ⟨by decide, rfl, rfl, rfl, rfl, rfl, by rfl⟩

/-! # Lemmas about the active/backlog split and reminder hydration -/

theorem splitTodos_eq (todos : List Todo) (states : List (String × ReminderState))
    (parseDay : String → Int) (t30 : Int) :
    splitTodos todos states parseDay t30 =
      ((todos.filter (fun t => ¬ parseDay t.date < t30)).map (hydrateTodo states),
       (todos.filter (fun t => parseDay t.date < t30)).map (hydrateTodo states)) := by
  have go : ∀ (l : List Todo) (a b : List Todo),
      l.foldl
        (fun acc t =>
          let t' := hydrateTodo states t
          if parseDay t.date < t30 then (acc.1, acc.2 ++ [t'])
          else (acc.1 ++ [t'], acc.2)) (a, b) =
      (a ++ (l.filter (fun t => ¬ parseDay t.date < t30)).map (hydrateTodo states),
       b ++ (l.filter (fun t => parseDay t.date < t30)).map (hydrateTodo states)) := by
    intro l
    induction l with
    | nil => intro a b; simp
    | cons t ts ih =>
        intro a b
        by_cases h : parseDay t.date < t30
        · simp [h, ih, List.filter_cons, not_le.mpr h]
        · simp [h, ih, List.filter_cons, not_lt.mp h]
  unfold splitTodos
  rw [go todos [] []]
  simp

/-- C7: a todo is placed in the backlog iff its parsed reference date is
strictly before the 30-days-ago instant; a todo whose date is exactly at
the boundary lands in the active list (the boundary is exclusive on the
backlog side). -/
theorem claim_C7 (todos : List Todo) (states : List (String × ReminderState))
    (parseDay : String → Int) (thirtyDaysAgo : Int) :
    ((splitTodos todos states parseDay thirtyDaysAgo).2 =
      (todos.filter (fun t => parseDay t.date < thirtyDaysAgo)).map (hydrateTodo states)) ∧
    ((splitTodos todos states parseDay thirtyDaysAgo).1 =
      (todos.filter (fun t => ¬ parseDay t.date < thirtyDaysAgo)).map (hydrateTodo states)) ∧
    (∀ t ∈ todos, parseDay t.date = thirtyDaysAgo →
      hydrateTodo states t ∈ (splitTodos todos states parseDay thirtyDaysAgo).1) := by
  refine ⟨by rw [splitTodos_eq], by rw [splitTodos_eq], ?_⟩
  intro t ht heq
  rw [splitTodos_eq]
  exact List.mem_map_of_mem _ (List.mem_filter.mpr ⟨ht, by simp [heq]⟩)

/-- C7 witness: a todo whose parsed date equals the 30-day boundary value is
classified active. -/
theorem claim_C7_witness :
    hydrateTodo [] sampleTodo ∈ (splitTodos [sampleTodo] [] (fun _ => 0) 0).1 :=
  (claim_C7 [sampleTodo] [] (fun _ => 0) 0).2.2 sampleTodo (by simp) rfl

/-! # Lemmas about the adapter -/

/-- C4: whenever the local CLI path fails — the CLI is unavailable or its
invocation errors — and no API credential resolves from config or
environment, `callLLM` propagates an error; it never returns a success
value in that situation. -/
theorem claim_C4 (config : Option Config) (cliAvailable : Bool)
    (cliResult : Except String String) (envKey : Option String)
    (apiResult : String → Except String String)
    (hkey : resolveApiKey config envKey = Option.none)
    (hcli : cliAvailable = false ∨ ∃ e, cliResult = Except.error e) :
    ∃ msg, callLLM config cliAvailable cliResult envKey apiResult = Except.error msg := by
  unfold callLLM
  rw [hkey]
  rcases hcli with h | ⟨e, he⟩
  · subst h
    simp
  · subst he
    by_cases hp : (¬ (config.bind (fun c => c.preferClaudeCli) = Option.some false)) ∧ cliAvailable
    · simp [hp]
    · simp [hp]

/-- C4 witness: no CLI, no key — `callLLM` returns an error. -/
theorem claim_C4_witness :
    resolveApiKey Option.none Option.none = Option.none ∧
    ∃ msg, callLLM Option.none false (Except.error "boom") Option.none
      (fun k => Except.ok k) = Except.error msg :=
  ⟨rfl, claim_C4 Option.none false (Except.error "boom") Option.none
    (fun k => Except.ok k) rfl (Or.inl rfl)⟩

/-! # Lemmas about the map model and the cached-todo lookup -/

theorem mapGet_cons_ne {α : Type} (p : String × α) (ps : List (String × α))
    (k' : String) (h : ¬ (p.1 = k')) :
    mapGet (p :: ps) k' = mapGet ps k' := by
  unfold mapGet
  rw [List.find?_cons_of_neg]
  simpa using h

theorem mapGet_cons_eq {α : Type} (p : String × α) (ps : List (String × α))
    (k' : String) (h : p.1 = k') :
    mapGet (p :: ps) k' = Option.some p.2 := by
  unfold mapGet
  rw [List.find?_cons_of_pos]
  · rfl
  · simpa using h

theorem mapGet_filter_ne {α : Type} (m : List (String × α)) (k k' : String)
    (h : k' ≠ k) :
    mapGet (m.filter (fun p => ¬ (p.1 = k))) k' = mapGet m k' := by
  induction m with
  | nil => rfl
  | cons p ps ih =>
      rw [List.filter_cons]
      by_cases hk : p.1 = k
      · rw [if_neg (by simpa using hk)]
        rw [ih, mapGet_cons_ne p ps k' (by rw [hk]; exact fun hh => h hh.symm)]
      · by_cases hk' : p.1 = k'
        · rw [if_pos (by simpa using hk)]
          rw [mapGet_cons_eq _ _ k' hk', mapGet_cons_eq p ps k' hk']
        · rw [if_pos (by simpa using hk)]
          rw [mapGet_cons_ne _ _ k' hk', mapGet_cons_ne p ps k' hk']
          exact ih

theorem mapGet_mapSet {α : Type} (m : List (String × α)) (k k' : String) (v : α) :
    mapGet (mapSet m k v) k' = if k' = k then Option.some v else mapGet m k' := by
  by_cases h : k' = k
  · subst h
    unfold mapSet
    rw [mapGet_cons_eq (k', v) _ k' rfl, if_pos rfl]
  · rw [if_neg h]
    unfold mapSet
    rw [mapGet_cons_ne (k, v) _ k' (fun hh => h hh.symm)]
    exact mapGet_filter_ne m k k' h

theorem getCachedTodos_fold_mem (l : List CachedRow) :
    ∀ (init : List (String × Todo)) (id : String) (t : Todo),
      mapGet (l.foldl
        (fun m r =>
          match r.todo with
          | Option.some t' => mapSet m r.emailId t'
          | Option.none => m) init) id = Option.some t →
      (∃ r ∈ l, r.emailId = id ∧ r.todo = Option.some t) ∨
        mapGet init id = Option.some t := by
  induction l with
  | nil => intro init id t h; exact Or.inr h
  | cons r rs ih =>
      intro init id t h
      cases hr : r.todo with
      | none =>
          simp only [List.foldl_cons, hr] at h
          rcases ih init id t h with hmem | hinit
          · obtain ⟨r', hr', hp⟩ := hmem
            exact Or.inl ⟨r', List.mem_cons_of_mem _ hr', hp⟩
          · exact Or.inr hinit
      | some t' =>
          simp only [List.foldl_cons, hr] at h
          rcases ih (mapSet init r.emailId t') id t h with hmem | hinit
          · obtain ⟨r', hr', hp⟩ := hmem
            exact Or.inl ⟨r', List.mem_cons_of_mem _ hr', hp⟩
          · rw [mapGet_mapSet] at hinit
            by_cases hid : id = r.emailId
            · rw [if_pos hid] at hinit
              exact Or.inl ⟨r, List.mem_cons_self r rs, hid.symm, by rw [hr, hinit]⟩
            · rw [if_neg hid] at hinit
              exact Or.inr hinit

/-- C10: every item surfaced by the bulk cache lookup comes from a row that
is marked actionable and holds a (non-NULL) payload; and during analysis a
hit marked actionable with a NULL payload contributes no action item. -/
theorem claim_C10 (db : List CachedRow) (emailIds : List String) :
    (∀ id t, mapGet (getCachedTodos db emailIds) id = Option.some t →
      ∃ r ∈ db, r.emailId = id ∧ r.isTodo = true ∧ r.todo = Option.some t) ∧
    (∀ c : CachedRow, c.isTodo = true → c.todo = Option.none →
      cachedTodoOf c = Option.none) := by
  constructor
  · intro id t h
    unfold getCachedTodos at h
    by_cases he : emailIds.isEmpty
    · rw [if_pos he] at h; simp [mapGet] at h
    · rw [if_neg he] at h
      rcases getCachedTodos_fold_mem _ [] id t h with hmem | hinit
      · obtain ⟨r, hrf, hid, htodo⟩ := hmem
        have hr := List.mem_filter.mp hrf
        have hprops := of_decide_eq_true hr.2
        exact ⟨r, hr.1, hid, hprops.2.1, htodo⟩
      · simp [mapGet] at hinit
  · intro c h1 h2
    simp [cachedTodoOf, h1, h2]

/-- C10 witness: the lookup over a store with one actionable row returns
that row's payload, and an actionable row with NULL payload yields no item. -/
theorem claim_C10_witness :
    (∃ r ∈ [sampleRow], r.emailId = "m1" ∧ r.isTodo = true ∧
      r.todo = Option.some sampleTodo) ∧
    cachedTodoOf sampleRowNull = Option.none :=
  ⟨(claim_C10 [sampleRow] ["m1"]).1 "m1" sampleTodo (by rfl),
   (claim_C10 [sampleRow] ["m1"]).2 sampleRowNull rfl rfl⟩

/-! # Lemmas about reconciliation failure handling -/

theorem fetchPendingReminders_all_fail
    (lists : List (ReminderListConfig × Option (List Reminder)))
    (parseDay : String → Int) (today : Int) (fmt : String → String)
    (nowIso : String) (h : ∀ p ∈ lists, p.2 = Option.none) :
    fetchPendingReminders lists parseDay today fmt nowIso = [] := by
  unfold fetchPendingReminders
  have go : ∀ (ls : List (ReminderListConfig × Option (List Reminder)))
      (acc : List Todo), (∀ p ∈ ls, p.2 = Option.none) →
      ls.foldl
        (fun todos p =>
          match p.2 with
          | Option.none => todos
          | Option.some reminders =>
              todos ++
                (reminders.filter (isRelevantReminder parseDay today)).map
                  (reminderTodoOf p.1 parseDay today fmt nowIso)) acc = acc := by
    intro ls
    induction ls with
    | nil => intro acc _; rfl
    | cons p ps ih =>
        intro acc hall
        have hp : p.2 = Option.none := hall p (List.mem_cons_self p ps)
        simp only [List.foldl_cons, hp]
        exact ih acc (fun q hq => hall q (List.mem_cons_of_mem _ hq))
  exact go lists [] h

theorem hydrateTodo_of_mapGet_none (states : List (String × ReminderState))
    (t : Todo) (h : mapGet states (t.emailId.getD "") = Option.none) :
    (hydrateTodo states t).reminderState = ReminderState.none := by
  simp [hydrateTodo, h]

/-- C6: a failed tracker query yields an empty state map, reconciliation
then completes with every analysis todo at state `none` and with zero
tracker-originated todos; and independently of query success, any todo
whose email identity has no matching back-reference is assigned `none`. -/
theorem claim_C6 (todos : List Todo) (parseDay : String → Int)
    (thirtyDaysAgo : Int)
    (lists : List (ReminderListConfig × Option (List Reminder)))
    (pd2 : String → Int) (today : Int) (fmt : String → String) (nowIso : String) :
    (getEmailReminderStates Option.none = []) ∧
    (∀ t' ∈ (splitTodos todos (getEmailReminderStates Option.none) parseDay thirtyDaysAgo).1 ++
        (splitTodos todos (getEmailReminderStates Option.none) parseDay thirtyDaysAgo).2,
      t'.reminderState = ReminderState.none) ∧
    ((∀ p ∈ lists, p.2 = Option.none) →
      fetchPendingReminders lists pd2 today fmt nowIso = []) ∧
    (∀ (execResult : Option (List Reminder)) (t : Todo),
      mapGet (getEmailReminderStates execResult) (t.emailId.getD "") = Option.none →
      (hydrateTodo (getEmailReminderStates execResult) t).reminderState =
        ReminderState.none) := by
  refine ⟨rfl, ?_, fetchPendingReminders_all_fail lists pd2 today fmt nowIso, ?_⟩
  · intro t' ht'
    rw [splitTodos_eq] at ht'
    rcases List.mem_append.mp ht' with hm | hm <;>
      · obtain ⟨t, _, rfl⟩ := List.mem_map.mp hm
        exact hydrateTodo_of_mapGet_none _ t rfl
  · intro execResult t h
    exact hydrateTodo_of_mapGet_none _ t h

/-- C6 witness: with a failed query, a concrete todo is hydrated at state
`none` and a concrete failing list set contributes zero tracker todos. -/
theorem claim_C6_witness :
    (hydrateTodo (getEmailReminderStates Option.none) sampleTodo).reminderState =
      ReminderState.none ∧
    fetchPendingReminders [({ list := "Work", group := "personal" }, Option.none)]
      (fun _ => 0) 0 (fun s => s) "now" = [] :=
  ⟨(claim_C6 [] (fun _ => 0) 0 [] (fun _ => 0) 0 (fun s => s) "now").2.2.2
      Option.none sampleTodo rfl,
   (claim_C6 [] (fun _ => 0) 0
      [({ list := "Work", group := "personal" }, Option.none)]
      (fun _ => 0) 0 (fun s => s) "now").2.2.1 (by simp)⟩

/-! # Lemmas about back-reference extraction and reminder creation -/

theorem extractToken_ne_empty :
    ∀ (l : List Char) (s : String), extractToken l = Option.some s → s ≠ "" := by
  intro l
  induction l with
  | nil => intro s h; exact absurd h (by simp [extractToken])
  | cons c cs ih =>
      intro s h
      unfold extractToken at h
      by_cases hsw : startsWithChars siftMarker (c :: cs)
      · rw [if_pos hsw] at h
        by_cases he : (((c :: cs).drop siftMarker.length).takeWhile isAlnumChar).isEmpty
        · rw [if_pos he] at h
          exact ih s h
        · rw [if_neg he] at h
          have hs := Option.some.inj h
          intro hempty
          rw [← hs] at hempty
          have : ((c :: cs).drop siftMarker.length).takeWhile isAlnumChar = [] :=
            congrArg String.data hempty
          simp [this] at he
      · rw [if_neg hsw] at h
        exact ih s h

theorem getEmailReminderStatesStep_preserves (acc : List (String × ReminderState))
    (r : Reminder) (eid : String) (h : (mapGet acc eid).isSome = true) :
    (mapGet
      (match r.notes with
       | Option.none => acc
       | Option.some notes =>
           if containsChars siftMarker notes.data then
             match extractToken notes.data with
             | Option.some eid' =>
                 mapSet acc eid'
                   (if r.isCompleted then ReminderState.completed
                    else ReminderState.pending)
             | Option.none => acc
           else acc) eid).isSome = true := by
  cases hn : r.notes with
  | none => exact h
  | some notes =>
      dsimp only
      by_cases hc : containsChars siftMarker notes.data
      · rw [if_pos hc]
        cases he : extractToken notes.data with
        | none => dsimp only; exact h
        | some eid' =>
            dsimp only
            rw [mapGet_mapSet]
            by_cases hid : eid = eid'
            · rw [if_pos hid]; rfl
            · rw [if_neg hid]; exact h
      · rw [if_neg hc]; exact h

theorem extractToken_contains :
    ∀ (l : List Char) (s : String), extractToken l = Option.some s →
      containsChars siftMarker l = true := by
  intro l
  induction l with
  | nil => intro s h; exact absurd h (by simp [extractToken])
  | cons c cs ih =>
      intro s h
      unfold extractToken at h
      unfold containsChars
      by_cases hsw : startsWithChars siftMarker (c :: cs)
      · simp [hsw]
      · rw [if_neg hsw] at h
        simp [ih s h]

theorem getEmailReminderStates_fold (rems : List Reminder) :
    ∀ (acc : List (String × ReminderState)) (eid : String),
      ((∃ r ∈ rems, ∃ ns, r.notes = Option.some ns ∧
          extractToken ns.data = Option.some eid) ∨
        (mapGet acc eid).isSome = true) →
      (mapGet (rems.foldl
        (fun states r =>
          match r.notes with
          | Option.none => states
          | Option.some notes =>
              if containsChars siftMarker notes.data then
                match extractToken notes.data with
                | Option.some eid' =>
                    mapSet states eid'
                      (if r.isCompleted then ReminderState.completed
                       else ReminderState.pending)
                | Option.none => states
              else states) acc) eid).isSome = true := by
  induction rems with
  | nil =>
      intro acc eid h
      rcases h with ⟨r, hr, _⟩ | h
      · exact absurd hr (List.not_mem_nil r)
      · exact h
  | cons r rs ih =>
      intro acc eid h
      simp only [List.foldl_cons]
      rcases h with ⟨r', hr', ns, hns, hex⟩ | h
      · rcases List.mem_cons.mp hr' with rfl | hmem
        · refine ih _ eid (Or.inr ?_)
          rw [hns]
          dsimp only
          rw [if_pos (extractToken_contains ns.data eid hex), hex]
          dsimp only
          rw [mapGet_mapSet, if_pos rfl]
          rfl
        · exact ih _ eid (Or.inl ⟨r', hmem, ns, hns, hex⟩)
      · exact ih _ eid (Or.inr (getEmailReminderStatesStep_preserves acc r eid h))

theorem hasReminder_of_token (rems : List Reminder) (eid : String)
    (r : Reminder) (ns : String) (hr : r ∈ rems) (hns : r.notes = Option.some ns)
    (hex : extractToken ns.data = Option.some eid) :
    hasReminder (Option.some rems) eid = true := by
  unfold hasReminder getEmailReminderStates
  exact getEmailReminderStates_fold rems [] eid (Or.inl ⟨r, hr, ns, hns, hex⟩)

/-- C9: creating a tracker reminder never duplicates: when the queried list
already holds an entry whose notes carry the todo's back-reference token,
`createReminderFromTodo` reports `alreadyExists` and issues no create
command; and a todo without an email identity (tracker-sourced) fails
without issuing a create command. -/
theorem claim_C9 :
    (∀ (todo : Todo) (list : String) (options : Option ReminderOptions)
      (rems : List Reminder) (spawn : Except String (Int × String))
      (eid : String) (r : Reminder) (ns : String),
      r ∈ rems → r.notes = Option.some ns →
      extractToken ns.data = Option.some eid →
      todo.emailId = Option.some eid →
      createReminderFromTodo todo list options (Option.some rems) spawn =
        ({ success := false, alreadyExists := true, list := Option.some list,
           error := Option.none }, Option.none)) ∧
    (∀ (todo : Todo) (list : String) (options : Option ReminderOptions)
      (listExec : Option (List Reminder)) (spawn : Except String (Int × String)),
      jsTruthyStr todo.emailId = false →
      createReminderFromTodo todo list options listExec spawn =
        ({ success := false, alreadyExists := false, list := Option.none,
           error := Option.some "No email ID" }, Option.none)) := by
  constructor
  · intro todo list options rems spawn eid r ns hr hns hex htodo
    have heid : eid ≠ "" := extractToken_ne_empty ns.data eid hex
    have hhas : hasReminder (Option.some rems) eid = true :=
      hasReminder_of_token rems eid r ns hr hns hex
    unfold createReminderFromTodo
    rw [htodo]
    simp [jsTruthyStr, heid, hhas]
  · intro todo list options listExec spawn h
    unfold createReminderFromTodo
    rw [h]
    simp

/-- C9 witness: with the back-reference already present,
`createReminderFromTodo` reports a duplicate and issues nothing; a todo
without an email id fails and issues nothing. -/
theorem claim_C9_witness :
    createReminderFromTodo sampleTodo "Work" Option.none
        (Option.some [sampleReminder]) (Except.ok (0, "")) =
      ({ success := false, alreadyExists := true, list := Option.some "Work",
         error := Option.none }, Option.none) ∧
    createReminderFromTodo { sampleTodo with emailId := Option.none } "Work"
        Option.none Option.none (Except.ok (0, "")) =
      ({ success := false, alreadyExists := false, list := Option.none,
         error := Option.some "No email ID" }, Option.none) :=
  ⟨claim_C9.1 sampleTodo "Work" Option.none [sampleReminder] (Except.ok (0, ""))
      "m1" sampleReminder "note\nsift:email:m1" (by simp) rfl (by rfl) rfl,
   claim_C9.2 { sampleTodo with emailId := Option.none } "Work" Option.none
      Option.none (Except.ok (0, "")) rfl⟩

/-! # Lemmas about the batch orchestrator -/

theorem getCachedAnalysis_of_hit (db : List CachedRow) (it : EmailWithMeta)
    (row : CachedRow) (hf : dbFind db it.email.id = Option.some row)
    (hh : row.emailHash = it.hash) :
    getCachedAnalysis db it.email.id it.hash = Option.some row := by
  unfold getCachedAnalysis
  rw [hf]
  dsimp only
  rw [if_neg (by simp [hh])]

theorem uncachedOf_nil (db : List CachedRow) (items : List EmailWithMeta)
    (h : ∀ it ∈ items, ∃ row, dbFind db it.email.id = Option.some row ∧
      row.emailHash = it.hash) :
    uncachedOf db items = [] := by
  unfold uncachedOf
  refine List.filter_eq_nil_iff.mpr ?_
  intro it hit
  obtain ⟨row, hf, hh⟩ := h it hit
  rw [getCachedAnalysis_of_hit db it row hf hh]
  simp

/-- C1: when every input item has a stored entry whose fingerprint matches,
`analyzeEmails` performs zero adapter calls, returns exactly the todos
reconstructed from the actionable cache entries, leaves the store
untouched, and any re-run on the unchanged input returns the identical
list regardless of the adapter or timestamp. -/
theorem claim_C1 (db : List CachedRow) (input : List EmailsGroup)
    (llm : List EmailWithMeta → List Todo) (now : Int)
    (h : ∀ it ∈ flattenEmails input, ∃ row, dbFind db it.email.id = Option.some row ∧
      row.emailHash = it.hash) :
    (analyzeEmails db input llm now).llmCalls = 0 ∧
    (analyzeEmails db input llm now).todos = collectCachedTodos db (flattenEmails input) ∧
    (analyzeEmails db input llm now).db = db ∧
    (∀ (llm2 : List EmailWithMeta → List Todo) (now2 : Int),
      (analyzeEmails db input llm2 now2).todos = (analyzeEmails db input llm now).todos) := by
  have hu : uncachedOf db (flattenEmails input) = [] := uncachedOf_nil db _ h
  have key : ∀ (llmx : List EmailWithMeta → List Todo) (nowx : Int),
      analyzeEmails db input llmx nowx =
        { todos := collectCachedTodos db (flattenEmails input), db := db,
          llmCalls := 0 } := by
    intro llmx nowx
    simp only [analyzeEmails]
    rw [hu]
    rfl
  rw [key llm now]
  exact ⟨rfl, rfl, rfl, fun llm2 now2 => by rw [key llm2 now2]⟩

/-- C1 witness: one fully cached item — zero adapter calls and an
adapter-independent result. -/
theorem claim_C1_witness :
    (analyzeEmails [sampleEmailRow] [sampleGroup] (fun _ => []) 0).llmCalls = 0 ∧
    (analyzeEmails [sampleEmailRow] [sampleGroup] (fun _ => [orphanTodo]) 1).todos =
      (analyzeEmails [sampleEmailRow] [sampleGroup] (fun _ => []) 0).todos := by
  have h : ∀ it ∈ flattenEmails [sampleGroup], ∃ row,
      dbFind [sampleEmailRow] it.email.id = Option.some row ∧
      row.emailHash = it.hash := by
    intro it hit
    simp [flattenEmails, sampleGroup] at hit
    subst hit
    exact ⟨sampleEmailRow, rfl, rfl⟩
  exact ⟨(claim_C1 [sampleEmailRow] [sampleGroup] (fun _ => []) 0 h).1,
    (claim_C1 [sampleEmailRow] [sampleGroup] (fun _ => []) 0 h).2.2.2
      (fun _ => [orphanTodo]) 1⟩

theorem dbFind_upsert (db : List CachedRow) (row : CachedRow) (id : String) :
    dbFind (upsertRow db row) id =
      if row.emailId = id then Option.some row else dbFind db id := by
  by_cases h : row.emailId = id
  · rw [if_pos h]
    unfold upsertRow dbFind
    rw [List.find?_cons_of_pos _ (by simpa using h)]
  · rw [if_neg h]
    unfold upsertRow dbFind
    rw [List.find?_cons_of_neg _ (by simpa using h)]
    induction db with
    | nil => rfl
    | cons r rs ih =>
        rw [List.filter_cons]
        by_cases hr : r.emailId = row.emailId
        · rw [if_neg (by simpa using hr)]
          rw [ih, List.find?_cons_of_neg _ (by simp [hr, h])]
        · rw [if_pos (by simpa using hr)]
          by_cases hid : r.emailId = id
          · rw [List.find?_cons_of_pos _ (by simpa using hid),
              List.find?_cons_of_pos _ (by simpa using hid)]
          · rw [List.find?_cons_of_neg _ (by simpa using hid),
              List.find?_cons_of_neg _ (by simpa using hid)]
            exact ih

theorem dbFind_batch_notMem (entries : List CacheEntry) :
    ∀ (db : List CachedRow) (now : Int) (id : String),
      (∀ e ∈ entries, e.emailId ≠ id) →
      dbFind (cacheAnalysisBatch db entries now) id = dbFind db id := by
  induction entries with
  | nil => intro db now id _; rfl
  | cons e es ih =>
      intro db now id h
      unfold cacheAnalysisBatch at ih ⊢
      rw [List.foldl_cons]
      rw [ih _ now id (fun e' he' => h e' (List.mem_cons_of_mem _ he'))]
      rw [dbFind_upsert]
      rw [if_neg (h e (List.mem_cons_self e es))]

theorem dbFind_runBatches_notMem (batches : List (List EmailWithMeta)) :
    ∀ (db : List CachedRow) (llm : List EmailWithMeta → List Todo)
      (now : Int) (id : String),
      (∀ b ∈ batches, ∀ it ∈ b, it.email.id ≠ id) →
      dbFind (runBatches llm now db batches).1 id = dbFind db id := by
  induction batches with
  | nil => intro db llm now id _; rfl
  | cons b bs ih =>
      intro db llm now id h
      unfold runBatches
      have h1 : dbFind (processBatch llm now db b).1 id = dbFind db id := by
        unfold processBatch
        refine dbFind_batch_notMem _ _ now id ?_
        intro e he
        obtain ⟨it, hit, rfl⟩ := List.mem_map.mp he
        exact h b (List.mem_cons_self b bs) it hit
      rw [ih _ llm now id (fun b' hb' => h b' (List.mem_cons_of_mem _ hb')), h1]

theorem chunksOfGo_subset {α : Type} (n : Nat) :
    ∀ (fuel : Nat) (l : List α) (b : List α), b ∈ chunksOfGo n fuel l → ∀ x ∈ b, x ∈ l := by
  intro fuel
  induction fuel with
  | zero =>
      intro l b hb
      cases l with
      | nil => simp [chunksOfGo] at hb
      | cons a as => simp [chunksOfGo] at hb
  | succ fuel ih =>
      intro l b hb
      cases l with
      | nil => simp [chunksOfGo] at hb
      | cons a as =>
          rw [show chunksOfGo n (fuel + 1) (a :: as) =
              (a :: as).take n :: chunksOfGo n fuel ((a :: as).drop n) from rfl] at hb
          rcases List.mem_cons.mp hb with rfl | hmem
          · intro x hx; exact List.take_subset n _ hx
          · intro x hx
            exact List.drop_subset n _ (ih _ b hmem x hx)

theorem chunksOf_subset {α : Type} (n : Nat) (l : List α) (b : List α)
    (h : b ∈ chunksOf n l) : ∀ x ∈ b, x ∈ l :=
  chunksOfGo_subset n l.length l b h

theorem runBatches_snd (llm : List EmailWithMeta → List Todo) (now : Int) :
    ∀ (batches : List (List EmailWithMeta)) (db : List CachedRow),
      (runBatches llm now db batches).2 =
        batches.foldr
          (fun b acc =>
            (llm b).map (fun t => { t with source := TodoSource.email }) ++ acc) [] := by
  intro batches
  induction batches with
  | nil => intro db; rfl
  | cons b bs ih =>
      intro db
      unfold runBatches
      rw [List.foldr_cons, ← ih (processBatch llm now db b).1]
      rfl

theorem mem_runBatches_snd (llm : List EmailWithMeta → List Todo) (now : Int)
    (batches : List (List EmailWithMeta)) (db : List CachedRow)
    (b : List EmailWithMeta) (hb : b ∈ batches) (t : Todo) (ht : t ∈ llm b) :
    { t with source := TodoSource.email } ∈ (runBatches llm now db batches).2 := by
  rw [runBatches_snd]
  clear db
  induction batches with
  | nil => exact absurd hb (List.not_mem_nil b)
  | cons b' bs ih =>
      rw [List.foldr_cons]
      rcases List.mem_cons.mp hb with rfl | hmem
      · exact List.mem_append_left _ (List.mem_map_of_mem _ ht)
      · exact List.mem_append_right _ (ih hmem)

/-- C2 (amended): a backend-returned todo whose emailId matches no
submitted item is never written to the cache — the run leaves every store
key outside the submitted item set untouched — but it is included in the
returned action-item list of the run that produced it (shown concretely by
the counterexample). -/
theorem claim_C2 (db : List CachedRow) (input : List EmailsGroup)
    (llm : List EmailWithMeta → List Todo) (now : Int) (id : String)
    (h : ∀ it ∈ flattenEmails input, it.email.id ≠ id) :
    dbFind (analyzeEmails db input llm now).db id = dbFind db id ∧
    (∀ b ∈ chunksOf 50 (uncachedOf db (flattenEmails input)), ∀ t ∈ llm b,
      { t with source := TodoSource.email } ∈ (analyzeEmails db input llm now).todos) := by
  by_cases he : (uncachedOf db (flattenEmails input)).isEmpty
  · constructor
    · simp only [analyzeEmails]
      rw [if_pos he]
    · intro b hb
      rw [List.isEmpty_iff.mp he] at hb
      simp [chunksOf, chunksOfGo] at hb
  · constructor
    · simp only [analyzeEmails]
      rw [if_neg he]
      refine dbFind_runBatches_notMem _ db llm now id ?_
      intro b hb it hit
      exact h it (List.filter_subset' _ (chunksOf_subset 50 _ b hb it hit))
    · intro b hb t ht
      simp only [analyzeEmails]
      rw [if_neg he]
      exact List.mem_append_right _ (mem_runBatches_snd llm now _ db b hb t ht)

set_option maxRecDepth 100000 in
/-- C2 counterexample: with one submitted item (id "m1") and a backend
response containing only an orphan todo (emailId "ghost"), the orphan DOES
appear in the returned action-item list, refuting "it never appears in the
action-item list returned by analyzeEmails". -/
theorem claim_C2_counterexample :
    (∀ it ∈ flattenEmails [sampleGroup], it.email.id ≠ "ghost") ∧
    (∃ t ∈ (analyzeEmails [] [sampleGroup] (fun _ => [orphanTodo]) 0).todos,
      t.emailId = Option.some "ghost") := by
  constructor
  · intro it hit
    simp [flattenEmails, sampleGroup] at hit
    subst hit
    simp [sampleEmail]
  · refine ⟨{ orphanTodo with source := TodoSource.email }, ?_, rfl⟩
    decide

set_option maxRecDepth 100000 in
/-- C2 witness: the orphan run writes nothing under the key "ghost". -/
theorem claim_C2_witness :
    dbFind (analyzeEmails [] [sampleGroup] (fun _ => [orphanTodo]) 0).db "ghost" =
      dbFind [] "ghost" ∧
    { orphanTodo with source := TodoSource.email } ∈
      (analyzeEmails [] [sampleGroup] (fun _ => [orphanTodo]) 0).todos := by
  have h : ∀ it ∈ flattenEmails [sampleGroup], it.email.id ≠ "ghost" := by
    intro it hit
    simp [flattenEmails, sampleGroup] at hit
    subst hit
    simp [sampleEmail]
  refine ⟨(claim_C2 [] [sampleGroup] (fun _ => [orphanTodo]) 0 "ghost" h).1,
    (claim_C2 [] [sampleGroup] (fun _ => [orphanTodo]) 0 "ghost" h).2
      (flattenEmails [sampleGroup]) ?_ orphanTodo ?_⟩
  · decide
  · decide

/-! # Lemmas about per-batch cache writes and the crash model -/

theorem cacheAnalysisBatch_cons (db : List CachedRow) (e0 : CacheEntry)
    (es : List CacheEntry) (now : Int) :
    cacheAnalysisBatch db (e0 :: es) now =
      cacheAnalysisBatch
        (upsertRow db
          { emailId := e0.emailId, account := e0.account, threadId := e0.threadId,
            analyzedAt := now, emailHash := e0.emailHash, isTodo := e0.isTodo,
            todo := e0.todo }) es now := rfl

theorem dbFind_batch_mem (entries : List CacheEntry) :
    ∀ (db : List CachedRow) (now : Int),
      (entries.map (fun e => e.emailId)).Nodup →
      ∀ e ∈ entries,
        dbFind (cacheAnalysisBatch db entries now) e.emailId =
          Option.some
            { emailId := e.emailId, account := e.account, threadId := e.threadId,
              analyzedAt := now, emailHash := e.emailHash, isTodo := e.isTodo,
              todo := e.todo } := by
  induction entries with
  | nil => intro db now _ e he; exact absurd he (List.not_mem_nil e)
  | cons e0 es ih =>
      intro db now hnd e he
      rw [cacheAnalysisBatch_cons]
      have hnd' : (∀ x ∈ es, ¬ x.emailId = e0.emailId) ∧
          (es.map (fun e => e.emailId)).Nodup := by simpa using hnd
      rcases List.mem_cons.mp he with rfl | hmem
      · have hne : ∀ e' ∈ es, e'.emailId ≠ e.emailId := fun e' he' => hnd'.1 e' he'
        rw [dbFind_batch_notMem es _ now e.emailId hne]
        rw [dbFind_upsert, if_pos rfl]
      · exact ih _ now hnd'.2 e hmem

theorem chunksOfGo_flatten {α : Type} (n : Nat) (hn : 0 < n) :
    ∀ (fuel : Nat) (l : List α), l.length ≤ fuel →
      (chunksOfGo n fuel l).flatten = l := by
  intro fuel
  induction fuel with
  | zero =>
      intro l hl
      have h0 : l = [] := List.length_eq_zero.mp (Nat.le_zero.mp hl)
      subst h0
      rfl
  | succ fuel ih =>
      intro l hl
      cases l with
      | nil => rfl
      | cons a as =>
          rw [show chunksOfGo n (fuel + 1) (a :: as) =
              (a :: as).take n :: chunksOfGo n fuel ((a :: as).drop n) from rfl]
          rw [List.flatten_cons]
          rw [ih ((a :: as).drop n) (by
            simp only [List.length_drop, List.length_cons]
            simp only [List.length_cons] at hl
            omega)]
          exact List.take_append_drop n (a :: as)

theorem chunksOf_flatten {α : Type} (n : Nat) (hn : 0 < n) (l : List α) :
    (chunksOf n l).flatten = l :=
  chunksOfGo_flatten n hn l.length l le_rfl

theorem runBatches_take_mem (llm : List EmailWithMeta → List Todo) (now : Int) :
    ∀ (batches : List (List EmailWithMeta)) (db : List CachedRow) (c j : Nat)
      (hj : j < batches.length), j < c →
      ((batches.flatten).map (fun it => it.email.id)).Nodup →
      ∀ it ∈ batches.get ⟨j, hj⟩,
        dbFind (runBatches llm now db (batches.take c)).1 it.email.id =
          Option.some (writtenRowOf llm now (batches.get ⟨j, hj⟩) it) := by
  intro batches
  induction batches with
  | nil => intro db c j hj; exact absurd hj (by simp)
  | cons b bs ih =>
      intro db c j hj hjc hnd it hit
      have hnd2 : ((b.map (fun it => it.email.id)) ++
          (bs.flatten.map (fun it => it.email.id))).Nodup := by
        simpa [List.flatten_cons] using hnd
      have hparts := List.nodup_append.mp hnd2
      cases c with
      | zero => omega
      | succ c' =>
          rw [show (b :: bs).take (c' + 1) = b :: bs.take c' from rfl]
          rw [show (runBatches llm now db (b :: bs.take c')).1 =
              (runBatches llm now (processBatch llm now db b).1 (bs.take c')).1 from rfl]
          cases j with
          | zero =>
              have hitb : it ∈ b := by simpa using hit
              have hdisj : ∀ b' ∈ bs.take c', ∀ it' ∈ b',
                  it'.email.id ≠ it.email.id := by
                intro b' hb' it' hit' heq
                have h1 : it.email.id ∈ b.map (fun it => it.email.id) :=
                  List.mem_map_of_mem _ hitb
                have h2 : it'.email.id ∈ bs.flatten.map (fun it => it.email.id) :=
                  List.mem_map_of_mem _
                    (List.mem_flatten.mpr ⟨b', List.take_subset c' bs hb', hit'⟩)
                rw [heq] at h2
                exact hparts.2.2 h1 h2
              rw [dbFind_runBatches_notMem _ _ llm now _ hdisj]
              have hndent : ((batchCacheEntries b
                  (todosByEmailId ((llm b).map (fun t => { t with source := TodoSource.email })))).map
                    (fun e => e.emailId)).Nodup := by
                have heq2 : (batchCacheEntries b
                    (todosByEmailId ((llm b).map (fun t => { t with source := TodoSource.email })))).map
                      (fun e => e.emailId) = b.map (fun it => it.email.id) := by
                  simp [batchCacheEntries]
                rw [heq2]
                exact hparts.1
              have happ := dbFind_batch_mem _ db now hndent _
                (show _ ∈ batchCacheEntries b
                    (todosByEmailId ((llm b).map (fun t => { t with source := TodoSource.email }))) from by
                  unfold batchCacheEntries
                  exact List.mem_map_of_mem _ hitb)
              exact happ
          | succ j' =>
              have hj' : j' < bs.length := by simpa using hj
              have hjc' : j' < c' := by omega
              have hit' : it ∈ bs.get ⟨j', hj'⟩ := by simpa using hit
              have := ih (processBatch llm now db b).1 c' j' hj' hjc' hparts.2.1 it hit'
              simpa using this

/-- C3: after the run commits `c` per-batch transactions and crashes, the
durable store holds, for every item of every committed batch, exactly the
entry the batch wrote — actionable entries with their payload and
non-actionable entries with `isTodo = false` — while every key outside the
submitted miss set is untouched; and the state after all batches is
exactly the store the full run returns, so a crash between batches loses
at most the uncommitted batches and never disturbs rows of earlier ones. -/
theorem claim_C3 (db : List CachedRow) (input : List EmailsGroup)
    (llm : List EmailWithMeta → List Todo) (now : Int) (c : Nat)
    (hnd : ((uncachedOf db (flattenEmails input)).map (fun it => it.email.id)).Nodup) :
    (∀ (j : Nat)
      (hj : j < (chunksOf 50 (uncachedOf db (flattenEmails input))).length),
      j < c →
      ∀ it ∈ (chunksOf 50 (uncachedOf db (flattenEmails input))).get ⟨j, hj⟩,
        dbFind (analyzeCrashDb db input llm now c) it.email.id =
          Option.some (writtenRowOf llm now
            ((chunksOf 50 (uncachedOf db (flattenEmails input))).get ⟨j, hj⟩) it)) ∧
    (∀ id : String,
      (∀ it ∈ uncachedOf db (flattenEmails input), it.email.id ≠ id) →
      dbFind (analyzeCrashDb db input llm now c) id = dbFind db id) ∧
    ((uncachedOf db (flattenEmails input)).isEmpty = false →
      analyzeCrashDb db input llm now
          (chunksOf 50 (uncachedOf db (flattenEmails input))).length =
        (analyzeEmails db input llm now).db) := by
  refine ⟨?_, ?_, ?_⟩
  · intro j hj hjc it hit
    unfold analyzeCrashDb
    refine runBatches_take_mem llm now _ db c j hj hjc ?_ it hit
    rw [show ((chunksOf 50 (uncachedOf db (flattenEmails input))).flatten) =
        uncachedOf db (flattenEmails input) from chunksOf_flatten 50 (by omega) _]
    exact hnd
  · intro id h
    unfold analyzeCrashDb
    refine dbFind_runBatches_notMem _ db llm now id ?_
    intro b hb it hit
    exact h it (chunksOf_subset 50 _ b (List.take_subset c _ hb) it hit)
  · intro hne
    unfold analyzeCrashDb
    rw [List.take_length _]
    simp only [analyzeEmails]
    rw [if_neg (by simp [hne])]

set_option maxRecDepth 1000000 in
/-- C3 witness: crashing after the single batch of a two-item run leaves
the non-actionable entry for "m1" durable with `isTodo = false`. -/
theorem claim_C3_witness :
    dbFind (analyzeCrashDb [] [sampleGroup2] (fun _ => []) 7 1) "m1" =
      Option.some
        { emailId := "m1", account := "acct", threadId := Option.some "t-m1",
          analyzedAt := 7,
          emailHash := hashEmail (sampleEmail "m1" "Hello" true false),
          isTodo := false, todo := Option.none } := by
  have h := (claim_C3 [] [sampleGroup2] (fun _ => []) 7 1 (by decide)).1 0
    (by decide) (by decide)
    { account := "acct", group := "personal",
      email := sampleEmail "m1" "Hello" true false,
      hash := hashEmail (sampleEmail "m1" "Hello" true false) }
    (by decide)
  exact h.trans (by rfl)

/-! # Lemmas about the windowed viewport -/

theorem countTodoEntries_append (a b : List ListItem) :
    countTodoEntries (a ++ b) = countTodoEntries a + countTodoEntries b := by
  simp [countTodoEntries, List.filter_append]

theorem todoEntriesFrom_append (a b : List Todo) :
    ∀ n : Nat, todoEntriesFrom n (a ++ b) =
      todoEntriesFrom n a ++ todoEntriesFrom (n + a.length) b := by
  induction a with
  | nil => intro n; simp [todoEntriesFrom]
  | cons t ts ih =>
      intro n
      show ListItem.todo t n :: todoEntriesFrom (n + 1) (ts ++ b) =
        ListItem.todo t n :: (todoEntriesFrom (n + 1) ts ++
          todoEntriesFrom (n + (ts.length + 1)) b)
      rw [ih (n + 1), show n + 1 + ts.length = n + (ts.length + 1) from by omega]

theorem filter_todoEntriesFrom (ts : List Todo) :
    ∀ n : Nat, (todoEntriesFrom n ts).filter isTodoItem = todoEntriesFrom n ts := by
  induction ts with
  | nil => intro n; rfl
  | cons t ts ih =>
      intro n
      simp [todoEntriesFrom, List.filter_cons, isTodoItem, ih (n + 1)]

theorem posOfTodo_spec :
    ∀ (l : List ListItem) (k i : Nat), posOfTodo l k = Option.some i →
      i < l.length ∧ countTodoEntries (l.take i) = k ∧
      ∃ t g, l.get? i = Option.some (ListItem.todo t g) := by
  intro l
  induction l with
  | nil => intro k i h; exact absurd h (by simp [posOfTodo])
  | cons item rest ih =>
      intro k i h
      cases item with
      | todo t g =>
          cases k with
          | zero =>
              have h0 : i = 0 := by simpa [posOfTodo] using h.symm
              subst h0
              exact ⟨by simp, by simp [countTodoEntries], t, g, rfl⟩
          | succ k' =>
              simp only [posOfTodo, Option.map_eq_some'] at h
              obtain ⟨i', hi', rfl⟩ := h
              obtain ⟨hlt, hcnt, t', g', hget⟩ := ih k' i' hi'
              refine ⟨by simpa using hlt, ?_, t', g', by simpa using hget⟩
              simp [List.take_cons, countTodoEntries, List.filter_cons, isTodoItem]
              simpa [countTodoEntries] using hcnt
      | header ti ic cl ct =>
          simp only [posOfTodo, Option.map_eq_some'] at h
          obtain ⟨i', hi', rfl⟩ := h
          obtain ⟨hlt, hcnt, t', g', hget⟩ := ih k i' hi'
          refine ⟨by simpa using hlt, ?_, t', g', by simpa using hget⟩
          simp [List.take_cons, countTodoEntries, List.filter_cons, isTodoItem]
          simpa [countTodoEntries] using hcnt

theorem posOfTodo_isSome :
    ∀ (l : List ListItem) (k : Nat), k < countTodoEntries l →
      ∃ i, posOfTodo l k = Option.some i := by
  intro l
  induction l with
  | nil => intro k h; simp [countTodoEntries] at h
  | cons item rest ih =>
      intro k h
      cases item with
      | todo t g =>
          cases k with
          | zero => exact ⟨0, rfl⟩
          | succ k' =>
              have h' : k' < countTodoEntries rest := by
                simpa [countTodoEntries, List.filter_cons, isTodoItem] using h
              obtain ⟨i, hi⟩ := ih k' h'
              exact ⟨i + 1, by simp [posOfTodo, hi]⟩
      | header ti ic cl ct =>
          have h' : k < countTodoEntries rest := by
            simpa [countTodoEntries, List.filter_cons, isTodoItem] using h
          obtain ⟨i, hi⟩ := ih k h'
          exact ⟨i + 1, by simp [posOfTodo, hi]⟩

theorem posOfTodo_mono :
    ∀ (l : List ListItem) (k k' i i' : Nat), k ≤ k' →
      posOfTodo l k = Option.some i → posOfTodo l k' = Option.some i' → i ≤ i' := by
  intro l
  induction l with
  | nil => intro k k' i i' _ h; exact absurd h (by simp [posOfTodo])
  | cons item rest ih =>
      intro k k' i i' hkk h h'
      cases item with
      | todo t g =>
          cases k with
          | zero =>
              have h0 : i = 0 := by simpa [posOfTodo] using h.symm
              subst h0
              exact Nat.zero_le i'
          | succ kp =>
              cases k' with
              | zero => omega
              | succ kp' =>
                  simp only [posOfTodo, Option.map_eq_some'] at h h'
                  obtain ⟨j, hj, rfl⟩ := h
                  obtain ⟨j', hj', rfl⟩ := h'
                  have := ih kp kp' j j' (by omega) hj hj'
                  omega
      | header ti ic cl ct =>
          simp only [posOfTodo, Option.map_eq_some'] at h h'
          obtain ⟨j, hj, rfl⟩ := h
          obtain ⟨j', hj', rfl⟩ := h'
          have := ih k k' j j' hkk hj hj'
          omega

theorem posOfTodo_get_filter :
    ∀ (l : List ListItem) (k i : Nat), posOfTodo l k = Option.some i →
      l.get? i = (l.filter isTodoItem).get? k := by
  intro l
  induction l with
  | nil => intro k i h; exact absurd h (by simp [posOfTodo])
  | cons item rest ih =>
      intro k i h
      cases item with
      | todo t g =>
          cases k with
          | zero =>
              have h0 : i = 0 := by simpa [posOfTodo] using h.symm
              subst h0
              simp [List.filter_cons, isTodoItem]
          | succ k' =>
              simp only [posOfTodo, Option.map_eq_some'] at h
              obtain ⟨i', hi', rfl⟩ := h
              simp only [List.filter_cons]
              rw [if_pos (by simp [isTodoItem])]
              simpa using ih k' i' hi'
      | header ti ic cl ct =>
          simp only [posOfTodo, Option.map_eq_some'] at h
          obtain ⟨i', hi', rfl⟩ := h
          simp only [List.filter_cons]
          rw [if_neg (by simp [isTodoItem])]
          simpa using ih k i' hi'

theorem todoEntriesFrom_get (ts : List Todo) :
    ∀ (n k : Nat), (todoEntriesFrom n ts).get? k =
      (ts.get? k).map (fun t => ListItem.todo t (n + k)) := by
  induction ts with
  | nil => intro n k; simp [todoEntriesFrom]
  | cons t ts ih =>
      intro n k
      cases k with
      | zero => simp [todoEntriesFrom]
      | succ k' =>
          simp only [todoEntriesFrom, List.get?_cons_succ, ih (n + 1) k']
          rw [show n + 1 + k' = n + (k' + 1) from by omega]

theorem todoEntriesFrom_length (ts : List Todo) :
    ∀ n : Nat, (todoEntriesFrom n ts).length = ts.length := by
  induction ts with
  | nil => intro n; rfl
  | cons t ts ih => intro n; simp [todoEntriesFrom, ih (n + 1)]

theorem addSection_spec (acc : List ListItem × Nat) (title icon : String)
    (items : List Todo) (color : String) (pre : List Todo)
    (h1 : acc.1.filter isTodoItem = todoEntriesFrom 0 pre)
    (h2 : acc.2 = pre.length) :
    (addSection acc title icon items color).1.filter isTodoItem =
      todoEntriesFrom 0 (pre ++ items) ∧
    (addSection acc title icon items color).2 = (pre ++ items).length := by
  unfold addSection
  by_cases he : items.length = 0
  · rw [if_pos he]
    have h0 : items = [] := List.length_eq_zero.mp he
    subst h0
    exact ⟨by simpa using h1, by simpa using h2⟩
  · rw [if_neg he]
    constructor
    · show (acc.1 ++ ListItem.header title icon color items.length ::
          todoEntriesFrom acc.2 items).filter isTodoItem = _
      rw [List.filter_append, h1, List.filter_cons,
        if_neg (by simp [isTodoItem]), filter_todoEntriesFrom items acc.2, h2,
        todoEntriesFrom_append pre items 0]
      simp
    · simp [h2]

theorem flatListOf_filter (todos : List Todo) :
    (flatListOf todos).filter isTodoItem =
      todoEntriesFrom 0
        ((todos.filter (fun t => t.urgency = Urgency.overdue) ++
          todos.filter (fun t => t.urgency = Urgency.this_week)) ++
          todos.filter (fun t => t.urgency = Urgency.when_you_can)) := by
  unfold flatListOf
  have s1 := addSection_spec ([], 0) "OVERDUE" "🔴"
    (todos.filter (fun t => t.urgency = Urgency.overdue)) "red" [] rfl rfl
  have s2 := addSection_spec _ "THIS WEEK" "🟡"
    (todos.filter (fun t => t.urgency = Urgency.this_week)) "yellow" _ s1.1 s1.2
  have s3 := addSection_spec _ "WHEN YOU CAN" "🔵"
    (todos.filter (fun t => t.urgency = Urgency.when_you_can)) "cyan" _ s2.1 s2.2
  simpa using s3.1

theorem length_filter_urgency (todos : List Todo) :
    (todos.filter (fun t => t.urgency = Urgency.overdue)).length +
      (todos.filter (fun t => t.urgency = Urgency.this_week)).length +
      (todos.filter (fun t => t.urgency = Urgency.when_you_can)).length =
      todos.length := by
  induction todos with
  | nil => rfl
  | cons t ts ih =>
      cases hu : t.urgency <;>
        simp [List.filter_cons, hu] <;> omega

theorem countTodoEntries_flatListOf (todos : List Todo) :
    countTodoEntries (flatListOf todos) = todos.length := by
  have h := congrArg List.length (flatListOf_filter todos)
  unfold countTodoEntries
  rw [h, todoEntriesFrom_length]
  simp only [List.length_append]
  have := length_filter_urgency todos
  omega

theorem findFlatEndGo_spec (target total : Nat) :
    ∀ (l : List ListItem) (i0 cnt j : Nat), cnt ≤ target →
      posOfTodo l (target - cnt) = Option.some j →
      findFlatEndGo target total l i0 cnt = i0 + j + 1 := by
  intro l
  induction l with
  | nil => intro i0 cnt j _ h; exact absurd h (by simp [posOfTodo])
  | cons item rest ih =>
      intro i0 cnt j hcnt hpos
      cases item with
      | todo t g =>
          by_cases hc : cnt = target
          · have h0 : target - cnt = 0 := by omega
            rw [h0] at hpos
            have hj : j = 0 := by simpa [posOfTodo] using hpos.symm
            subst hj
            simp [findFlatEndGo, hc]
          · have hsub : target - cnt = (target - (cnt + 1)) + 1 := by omega
            rw [hsub] at hpos
            simp only [posOfTodo, Option.map_eq_some'] at hpos
            obtain ⟨j', hj', rfl⟩ := hpos
            simp only [findFlatEndGo, if_neg hc]
            rw [ih (i0 + 1) (cnt + 1) j' (by omega) hj']
            omega
      | header ti ic cl ct =>
          simp only [posOfTodo, Option.map_eq_some'] at hpos
          obtain ⟨j', hj', rfl⟩ := hpos
          simp only [findFlatEndGo]
          rw [ih (i0 + 1) cnt j' hcnt hj']
          omega

theorem findFlatStartGo_spec (ws : Nat) :
    ∀ (l : List ListItem) (prev : Option ListItem) (i0 cnt j : Nat),
      cnt ≤ ws → posOfTodo l (ws - cnt) = Option.some j →
      findFlatStartGo ws l prev i0 cnt =
        (if j = 0 then
          (match prev with
           | Option.some (ListItem.header _ _ _ _) => i0 - 1
           | _ => i0)
         else
          (match l.get? (j - 1) with
           | Option.some (ListItem.header _ _ _ _) => i0 + j - 1
           | _ => i0 + j)) := by
  intro l
  induction l with
  | nil => intro prev i0 cnt j _ h; exact absurd h (by simp [posOfTodo])
  | cons item rest ih =>
      intro prev i0 cnt j hcnt hpos
      cases item with
      | todo t g =>
          by_cases hc : cnt = ws
          · have h0 : ws - cnt = 0 := by omega
            rw [h0] at hpos
            have hj : j = 0 := by simpa [posOfTodo] using hpos.symm
            subst hj
            simp [findFlatStartGo, hc]
          · have hsub : ws - cnt = (ws - (cnt + 1)) + 1 := by omega
            rw [hsub] at hpos
            simp only [posOfTodo, Option.map_eq_some'] at hpos
            obtain ⟨j', hj', rfl⟩ := hpos
            simp only [findFlatStartGo, if_neg hc]
            rw [ih (Option.some (ListItem.todo t g)) (i0 + 1) (cnt + 1) j'
              (by omega) hj']
            rw [if_neg (by omega : ¬ (j' + 1 = 0))]
            cases j' with
            | zero => simp
            | succ jp =>
                rw [if_neg (by omega : ¬ (jp + 1 = 0))]
                rw [show jp + 1 - 1 = jp from by omega,
                  show jp + 1 + 1 - 1 = jp + 1 from by omega,
                  List.get?_cons_succ]
                cases hget : rest.get? jp with
                | none =>
                    simp [hget]
                    ring
                | some it2 =>
                    cases it2 <;> simp [hget] <;> ring
      | header ti ic cl ct =>
          simp only [posOfTodo, Option.map_eq_some'] at hpos
          obtain ⟨j', hj', rfl⟩ := hpos
          simp only [findFlatStartGo]
          rw [ih (Option.some (ListItem.header ti ic cl ct)) (i0 + 1) cnt j'
            hcnt hj']
          rw [if_neg (by omega : ¬ (j' + 1 = 0))]
          cases j' with
          | zero => simp
          | succ jp =>
              rw [if_neg (by omega : ¬ (jp + 1 = 0))]
              rw [show jp + 1 - 1 = jp from by omega,
                show jp + 1 + 1 - 1 = jp + 1 from by omega,
                List.get?_cons_succ]
              cases hget : rest.get? jp with
              | none =>
                  simp [hget]
                  ring
              | some it2 =>
                  cases it2 <;> simp [hget] <;> ring

theorem findFlatStart_spec (l : List ListItem) (ws j : Nat)
    (hpos : posOfTodo l ws = Option.some j) :
    findFlatStart l ws =
      (if j = 0 then 0
       else
        (match l.get? (j - 1) with
         | Option.some (ListItem.header _ _ _ _) => j - 1
         | _ => j)) := by
  unfold findFlatStart
  rw [findFlatStartGo_spec ws l Option.none 0 0 j (Nat.zero_le ws)
    (by simpa using hpos)]
  cases j with
  | zero => simp
  | succ jp =>
      rw [if_neg (by omega), if_neg (by omega)]
      cases hget : l.get? (jp + 1 - 1) with
      | none => simp [hget]
      | some it2 => cases it2 <;> simp [hget]

theorem findFlatEnd_spec (l : List ListItem) (we j : Nat)
    (hpos : posOfTodo l (we - 1) = Option.some j) :
    findFlatEnd l we = j + 1 := by
  unfold findFlatEnd
  rw [findFlatEndGo_spec (we - 1) l.length l 0 0 j (Nat.zero_le _)
    (by simpa using hpos)]
  omega

theorem windowBounds_spec (V sel len : Nat) (hV : 5 ≤ V) (hsel : sel < len) :
    (windowBounds V sel len).1 ≤ sel ∧ sel < (windowBounds V sel len).2 ∧
    (windowBounds V sel len).2 ≤ len ∧
    (windowBounds V sel len).2 - (windowBounds V sel len).1 = min V len ∧
    (V / 2 ≤ sel ∧ sel + (V - V / 2) ≤ len →
      (windowBounds V sel len).1 = sel - V / 2 ∧
      (windowBounds V sel len).2 = sel + (V - V / 2)) := by
  simp only [windowBounds]
  split_ifs with h <;>
    refine ⟨by omega, by omega, by omega, by omega, fun hc => ⟨by omega, by omega⟩⟩

theorem countTodoEntries_take_succ (l : List ListItem) (i : Nat) (x : ListItem)
    (hx : l.get? i = Option.some x) :
    countTodoEntries (l.take (i + 1)) =
      countTodoEntries (l.take i) + (if isTodoItem x then 1 else 0) := by
  rw [List.take_succ,
    show l[i]? = Option.some x from by rw [← List.get?_eq_getElem?]; exact hx,
    countTodoEntries_append]
  cases hb : isTodoItem x <;>
    simp [hb, countTodoEntries, List.filter_cons, Option.toList]

theorem mem_slice {α : Type} (l : List α) (a : α) (fs fe i : Nat)
    (h1 : fs ≤ i) (h2 : i < fe) (hget : l.get? i = Option.some a) :
    a ∈ (l.drop fs).take (fe - fs) := by
  have hd : (l.drop fs).get? (i - fs) = Option.some a := by
    rw [List.get?_drop]
    rwa [show fs + (i - fs) = i from by omega]
  have ht : ((l.drop fs).take (fe - fs)).get? (i - fs) = Option.some a := by
    rw [List.get?_take (by omega : i - fs < fe - fs)]
    exact hd
  exact List.get?_mem ht

theorem sorted_length (todos : List Todo) :
    ((todos.filter (fun t => t.urgency = Urgency.overdue) ++
      todos.filter (fun t => t.urgency = Urgency.this_week)) ++
      todos.filter (fun t => t.urgency = Urgency.when_you_can)).length =
      todos.length := by
  simp only [List.length_append]
  have := length_filter_urgency todos
  omega

/-- C8 (amended): for a nonempty list and in-bounds selection, the viewport
window clamps to the list, contains the selection, and is centered on it
when possible; the rendered slice contains the selected item's entry; the
section header immediately preceding the first windowed item is included;
and the "more above"/"more below" indicator counts are the exact numbers of
todo items (headers excluded) outside the window. (The original claim's
"including any skipped headers" for the counts is refuted by the
counterexample below.) -/
theorem claim_C8 (todos : List Todo) (sel th : Nat)
    (hne : todos ≠ []) (hsel : sel < todos.length) :
    (viewportWindow todos sel th).1 ≤ sel ∧
    sel < (viewportWindow todos sel th).2 ∧
    (viewportWindow todos sel th).2 ≤ todos.length ∧
    (viewportWindow todos sel th).2 - (viewportWindow todos sel th).1 =
      min (visibleItemsOf th) todos.length ∧
    (visibleItemsOf th / 2 ≤ sel ∧
      sel + (visibleItemsOf th - visibleItemsOf th / 2) ≤ todos.length →
      (viewportWindow todos sel th).1 = sel - visibleItemsOf th / 2 ∧
      (viewportWindow todos sel th).2 = sel + (visibleItemsOf th - visibleItemsOf th / 2)) ∧
    moreAboveCount todos sel th =
      countTodoEntries ((flatListOf todos).take
        (findFlatStart (flatListOf todos) (viewportWindow todos sel th).1)) ∧
    moreBelowCount todos sel th =
      countTodoEntries ((flatListOf todos).drop
        (findFlatEnd (flatListOf todos) (viewportWindow todos sel th).2)) ∧
    (∃ t, ListItem.todo t sel ∈ viewportSlice todos sel th) ∧
    (∀ i, posOfTodo (flatListOf todos) (viewportWindow todos sel th).1 = Option.some i →
      ∀ ti ic cl ct, (flatListOf todos).get? (i - 1) =
        Option.some (ListItem.header ti ic cl ct) →
      findFlatStart (flatListOf todos) (viewportWindow todos sel th).1 = i - 1) := by
  have hV : 5 ≤ visibleItemsOf th := le_max_left 5 _
  have warith := windowBounds_spec (visibleItemsOf th) sel todos.length hV hsel
  rw [show windowBounds (visibleItemsOf th) sel todos.length =
    viewportWindow todos sel th from rfl] at warith
  obtain ⟨hws_sel, hsel_we, hwe_len, hwidth, hcenter⟩ := warith
  have hcount : countTodoEntries (flatListOf todos) = todos.length :=
    countTodoEntries_flatListOf todos
  have hws_lt : (viewportWindow todos sel th).1 < countTodoEntries (flatListOf todos) := by
    rw [hcount]; omega
  have hsel_lt : sel < countTodoEntries (flatListOf todos) := by rw [hcount]; omega
  have hwe1_lt : (viewportWindow todos sel th).2 - 1 <
      countTodoEntries (flatListOf todos) := by rw [hcount]; omega
  obtain ⟨iws, hiws⟩ := posOfTodo_isSome _ _ hws_lt
  obtain ⟨isel, hisel⟩ := posOfTodo_isSome _ _ hsel_lt
  obtain ⟨iwe, hiwe⟩ := posOfTodo_isSome _ _ hwe1_lt
  obtain ⟨hiws_len, hiws_cnt, tws, gws, hiws_get⟩ := posOfTodo_spec _ _ _ hiws
  obtain ⟨hisel_len, hisel_cnt, tsel, gsel, hisel_get⟩ := posOfTodo_spec _ _ _ hisel
  obtain ⟨hiwe_len, hiwe_cnt, twe, gwe, hiwe_get⟩ := posOfTodo_spec _ _ _ hiwe
  have hfe : findFlatEnd (flatListOf todos) (viewportWindow todos sel th).2 = iwe + 1 :=
    findFlatEnd_spec _ _ iwe hiwe
  have hfs_le : findFlatStart (flatListOf todos) (viewportWindow todos sel th).1 ≤ iws := by
    rw [findFlatStart_spec _ _ iws hiws]
    by_cases h0 : iws = 0
    · simp [h0]
    · rw [if_neg h0]
      cases hg : (flatListOf todos).get? (iws - 1) with
      | none => simp
      | some it2 => cases it2 <;> simp <;> omega
  have hfs_cnt : countTodoEntries ((flatListOf todos).take
      (findFlatStart (flatListOf todos) (viewportWindow todos sel th).1)) =
      (viewportWindow todos sel th).1 := by
    rw [findFlatStart_spec _ _ iws hiws]
    by_cases h0 : iws = 0
    · subst h0
      have h00 : (viewportWindow todos sel th).1 = 0 := by
        simpa [countTodoEntries] using hiws_cnt.symm
      simp [h00, countTodoEntries]
    · rw [if_neg h0]
      cases hg : (flatListOf todos).get? (iws - 1) with
      | none => exact hiws_cnt
      | some it2 =>
          cases it2 with
          | header ti ic cl ct =>
              have hstep := countTodoEntries_take_succ (flatListOf todos)
                (iws - 1) (ListItem.header ti ic cl ct) hg
              rw [show iws - 1 + 1 = iws from by omega] at hstep
              have : countTodoEntries ((flatListOf todos).take (iws - 1)) =
                  (viewportWindow todos sel th).1 := by
                rw [hiws_cnt] at hstep
                simpa [isTodoItem] using hstep.symm
              simpa using this
          | todo t g => exact hiws_cnt
  have hfe_cnt : countTodoEntries ((flatListOf todos).drop
      (findFlatEnd (flatListOf todos) (viewportWindow todos sel th).2)) =
      todos.length - (viewportWindow todos sel th).2 := by
    rw [hfe]
    have hsplit := congrArg countTodoEntries
      (List.take_append_drop (iwe + 1) (flatListOf todos))
    rw [countTodoEntries_append] at hsplit
    have htake : countTodoEntries ((flatListOf todos).take (iwe + 1)) =
        (viewportWindow todos sel th).2 := by
      rw [countTodoEntries_take_succ (flatListOf todos) iwe _ hiwe_get, hiwe_cnt]
      simp [isTodoItem]
      omega
    rw [htake, hcount] at hsplit
    omega
  refine ⟨hws_sel, hsel_we, hwe_len, hwidth, hcenter, hfs_cnt.symm, hfe_cnt.symm, ?_, ?_⟩
  · -- selected item in slice
    have hgf := posOfTodo_get_filter _ _ _ hisel
    rw [flatListOf_filter] at hgf
    have hbig : sel <
        ((todos.filter (fun t => t.urgency = Urgency.overdue) ++
          todos.filter (fun t => t.urgency = Urgency.this_week)) ++
          todos.filter (fun t => t.urgency = Urgency.when_you_can)).length := by
      rw [sorted_length]; omega
    rw [todoEntriesFrom_get, List.get?_eq_get hbig] at hgf
    have hget2 : (flatListOf todos).get? isel =
        Option.some (ListItem.todo
          (((todos.filter (fun t => t.urgency = Urgency.overdue) ++
            todos.filter (fun t => t.urgency = Urgency.this_week)) ++
            todos.filter (fun t => t.urgency = Urgency.when_you_can)).get ⟨sel, hbig⟩)
          sel) := by
      rw [hgf]
      simp
    have hmono1 : iws ≤ isel := posOfTodo_mono _ _ _ _ _ hws_sel hiws hisel
    have hmono2 : isel ≤ iwe :=
      posOfTodo_mono _ _ _ _ _ (by omega) hisel hiwe
    exact ⟨_, mem_slice (flatListOf todos) _
      (findFlatStart (flatListOf todos) (viewportWindow todos sel th).1)
      (findFlatEnd (flatListOf todos) (viewportWindow todos sel th).2)
      isel (by omega) (by rw [hfe]; omega) hget2⟩
  · -- header inclusion
    intro i hpos ti ic cl ct hget
    have hieq : i = iws := by
      rw [hiws] at hpos
      exact (Option.some.inj hpos).symm
    subst hieq
    by_cases h0 : i = 0
    · subst h0
      rw [show (0 : Nat) - 1 = 0 from rfl] at hget
      rw [hget] at hiws_get
      exact absurd (Option.some.inj hiws_get) (by simp)
    · rw [findFlatStart_spec _ _ i hiws, if_neg h0, hget]

set_option maxRecDepth 1000000 in
/-- C8 counterexample: in the spec's own example (23 items: 2 overdue, 10
this_week, 11 when_you_can; viewport height 10, i.e. terminal height 18;
selection on item 15) the window is items [10, 20); the flat prefix above
the rendered slice holds 12 entries (10 items plus 2 skipped headers), but
the rendered "more above" count is 10 — items only — refuting "exact
counts of what lies outside the window, including any skipped headers". -/
theorem claim_C8_counterexample :
    moreAboveCount viewTodos 15 18 = 10 ∧
    ((flatListOf viewTodos).take (findFlatStart (flatListOf viewTodos)
        (viewportWindow viewTodos 15 18).1)).length = 12 ∧
    moreAboveCount viewTodos 15 18 ≠
      ((flatListOf viewTodos).take (findFlatStart (flatListOf viewTodos)
        (viewportWindow viewTodos 15 18).1)).length := by decide

set_option maxRecDepth 1000000 in
/-- C8 witness: on the spec's example the indicator equals the exact item
count above the slice and the selected entry is rendered. -/
theorem claim_C8_witness :
    moreAboveCount viewTodos 15 18 =
      countTodoEntries ((flatListOf viewTodos).take
        (findFlatStart (flatListOf viewTodos) (viewportWindow viewTodos 15 18).1)) ∧
    (∃ t, ListItem.todo t 15 ∈ viewportSlice viewTodos 15 18) := by
  have h := claim_C8 viewTodos 15 18 (by decide) (by decide)
  exact ⟨h.2.2.2.2.2.1, h.2.2.2.2.2.2.2.1⟩

end Sift
